import Mathlib

/-! # Verification of the Kibana saved-object export content script

This development is a shallow embedding, in Lean 4, of the core logic of
`src/content/content.js` of the `kb-ascode-browser` repository: the URL
classifier (`detectSavedObject`), the panel harvesters
(`getEmbeddedPanelsFromAPI`, `detectEmbeddedPanels`), the record synthesizer
(`constructPanelExport`), the resource aggregator (`getAllResources`) and the
message handlers (the export router).

Modelling conventions:
* JavaScript values flowing through the script (parsed JSON documents, message
  fields) are modelled by the inductive type `Json`.  JSON numbers are
  modelled as integers: none of the code paths under verification perform
  numeric computation beyond comparison and subtraction of grid coordinates,
  so floating-point formatting is irrelevant here.
* `undefined` and `null` are collapsed into `Json.null`: the script only ever
  distinguishes them through truthiness and `typeof x === 'string'` checks,
  which agree on both.
* Strings are modelled as `List Char` (`Chars`).
* Network I/O (`fetch`) and DOM reads are modelled as explicit oracle
  parameters; the DOM-path harvester receives the list of panel containers
  (with their bounding-box offsets) that the selectors produced.
* `JSON.stringify` (no indent) is modelled by `jsonStringify`, and
  `JSON.parse` by `jsonParse`; `jsonParse` is a strict parser covering
  exactly the whitespace-free serializations that `jsonStringify` emits,
  which is the only use the verified paths make of it.
-/

abbrev Chars := List Char

/-- Character for a single decimal digit `d < 10` (`'0'` … `'9'`). -/
def digitChar (d : Nat) : Char := Char.ofNat (48 + d)

/-- Lowercase hexadecimal digit character for `d < 16`. -/
def hexDigitChar (d : Nat) : Char :=
  if d < 10 then Char.ofNat (48 + d) else Char.ofNat (87 + d)

/-- Decimal digits of a positive natural, most significant first.
The `fuel` argument strictly bounds the recursion depth; `n ≤ fuel` always
suffices.  (Fuel keeps the definition kernel-reducible.) -/
def natToCharsAux : Nat → Nat → Chars
  | 0, _ => []
  | _ + 1, 0 => []
  | fuel + 1, n => natToCharsAux fuel (n / 10) ++ [digitChar (n % 10)]

/-- Decimal representation of a natural number, as `String(n)` renders it. -/
def natToChars (n : Nat) : Chars :=
  if n = 0 then ['0'] else natToCharsAux n n

/-- Decimal representation of an integer, as `String(n)` renders it. -/
def intToChars (n : Int) : Chars :=
  if n < 0 then '-' :: natToChars n.natAbs else natToChars n.toNat

/-- The escape sequence `JSON.stringify` emits for one character of a string:
`"` and `\` are backslash-escaped, the five control characters with short
forms use them, the remaining control characters become `\u00XX`, and every
other character is emitted verbatim.  (Lean `Char` holds a Unicode scalar
value, so the lone-surrogate escaping of well-formed `JSON.stringify` cannot
arise.) -/
def escapeChar (c : Char) : Chars :=
  if c = '"' then ['\\', '"']
  else if c = '\\' then ['\\', '\\']
  else if c.toNat = 8 then ['\\', 'b']
  else if c.toNat = 9 then ['\\', 't']
  else if c.toNat = 10 then ['\\', 'n']
  else if c.toNat = 12 then ['\\', 'f']
  else if c.toNat = 13 then ['\\', 'r']
  else if c.toNat < 32 then
    ['\\', 'u', '0', '0', hexDigitChar (c.toNat / 16), hexDigitChar (c.toNat % 16)]
  else [c]

/-- A JSON string literal: quote, escaped body, quote. -/
def quoteChars (s : Chars) : Chars :=
  '"' :: (s.flatMap escapeChar ++ ['"'])

/-- JSON/JavaScript values.  `undefined` is collapsed into `null` (see the
header comment), and numbers are modelled as integers. -/
inductive Json where
  | null : Json
  | bool (b : Bool) : Json
  | num (n : Int) : Json
  | str (s : Chars) : Json
  | arr (elems : List Json) : Json
  | obj (fields : List (Chars × Json)) : Json

instance : Inhabited Json := ⟨Json.null⟩

mutual

/-- `JSON.stringify(v)` with no indent argument. -/
def jsonStringify : Json → Chars
  | .null => "null".toList
  | .bool true => "true".toList
  | .bool false => "false".toList
  | .num n => intToChars n
  | .str s => quoteChars s
  | .arr es => '[' :: (stringifyElems es ++ [']'])
  | .obj fs => '\x7b' :: (stringifyFields fs ++ ['\x7d'])

/-- Comma-separated serialization of array elements. -/
def stringifyElems : List Json → Chars
  | [] => []
  | [j] => jsonStringify j
  | j :: rest@(_ :: _) => jsonStringify j ++ ',' :: stringifyElems rest

/-- Comma-separated serialization of object fields. -/
def stringifyFields : List (Chars × Json) → Chars
  | [] => []
  | [(k, v)] => quoteChars k ++ ':' :: jsonStringify v
  | (k, v) :: rest@(_ :: _) => quoteChars k ++ ':' :: jsonStringify v ++ ',' :: stringifyFields rest

end

mutual

/-- Structural size of a JSON value; used as a fuel bound for the parser. -/
def jsize : Json → Nat
  | .null | .bool _ | .num _ | .str _ => 1
  | .arr es => 1 + esize es
  | .obj fs => 1 + fsize fs

/-- Summed size of array elements (one extra unit per element, so that the
size strictly dominates the parser recursion depth). -/
def esize : List Json → Nat
  | [] => 0
  | j :: rest => 1 + jsize j + esize rest

/-- Summed size of object field values. -/
def fsize : List (Chars × Json) → Nat
  | [] => 0
  | (_, v) :: rest => 1 + jsize v + fsize rest

end

/-- JavaScript truthiness of a `Json` value (`undefined`/`null`, `false`,
`0`, and the empty string are falsy; every object and array is truthy). -/
def truthy : Json → Bool
  | .null => false
  | .bool b => b
  | .num n => n ≠ 0
  | .str s => s ≠ []
  | .arr _ => true
  | .obj _ => true

/-- `a || b` on JavaScript values: `a` when truthy, else `b`. -/
def jsOr (a b : Json) : Json := if truthy a then a else b

/-- Property access `v[k]`: on an object, the value of the last binding of
`k` (the shape `JSON.parse` leaves for duplicate keys); `undefined`
(modelled `null`) on anything else or a missing key.  Chained accesses such
as `a?.b?.c` become nested `jsGet`, since `jsGet` on `null` is `null`. -/
def jsGet (v : Json) (k : Chars) : Json :=
  match v with
  | .obj fs =>
    match (fs.reverse.find? (fun f => f.1 = k)) with
    | some f => f.2
    | none => .null
  | _ => .null

/-- Strict equality `a === b` on the JavaScript values that can appear as
`panelIndex`: primitives compare by value; arrays and objects compare by
reference, which is never `true` between a freshly parsed document and an
incoming message value, so the model returns `false` for them. -/
def jsStrictEq (a b : Json) : Bool :=
  match a, b with
  | .null, .null => true
  | .bool x, .bool y => x = y
  | .num x, .num y => x = y
  | .str x, .str y => x = y
  | _, _ => false

mutual

/-- Boolean structural equality on `Json` (the derive handler does not
support this nested inductive, so the instance is built by hand). -/
def jsonBEq : Json → Json → Bool
  | .null, .null => true
  | .bool x, .bool y => x = y
  | .num x, .num y => x = y
  | .str x, .str y => x = y
  | .arr xs, .arr ys => elemsBEq xs ys
  | .obj xs, .obj ys => fieldsBEq xs ys
  | _, _ => false

/-- Boolean equality on element lists. -/
def elemsBEq : List Json → List Json → Bool
  | [], [] => true
  | x :: xs, y :: ys => jsonBEq x y && elemsBEq xs ys
  | _, _ => false

/-- Boolean equality on field lists. -/
def fieldsBEq : List (Chars × Json) → List (Chars × Json) → Bool
  | [], [] => true
  | (k, v) :: xs, (k2, v2) :: ys => decide (k = k2) && jsonBEq v v2 && fieldsBEq xs ys
  | _, _ => false

end

mutual

theorem jsonBEq_eq : ∀ a b : Json, jsonBEq a b = true ↔ a = b
  | .null, b => by cases b <;> simp [jsonBEq]
  | .bool x, b => by cases b <;> simp [jsonBEq]
  | .num x, b => by cases b <;> simp [jsonBEq]
  | .str x, b => by cases b <;> simp [jsonBEq]
  | .arr xs, b => by
      cases b <;> simp [jsonBEq]
      exact (elemsBEq_eq xs _)
  | .obj xs, b => by
      cases b <;> simp [jsonBEq]
      exact (fieldsBEq_eq xs _)

theorem elemsBEq_eq : ∀ a b : List Json, elemsBEq a b = true ↔ a = b
  | [], b => by cases b <;> simp [elemsBEq]
  | x :: xs, b => by
      cases b with
      | nil => simp [elemsBEq]
      | cons y ys =>
        simp [elemsBEq, Bool.and_eq_true, jsonBEq_eq x y, elemsBEq_eq xs ys]

theorem fieldsBEq_eq : ∀ a b : List (Chars × Json), fieldsBEq a b = true ↔ a = b
  | [], b => by cases b <;> simp [fieldsBEq]
  | (k, v) :: xs, b => by
      cases b with
      | nil => simp [fieldsBEq]
      | cons y ys =>
        obtain ⟨k2, v2⟩ := y
        simp [fieldsBEq, Bool.and_eq_true, jsonBEq_eq v v2, fieldsBEq_eq xs ys,
          Prod.ext_iff, and_assoc]

end

instance : DecidableEq Json := fun a b =>
  decidable_of_iff (jsonBEq a b = true) (jsonBEq_eq a b)

/-- Numeric value of a hexadecimal digit character (both cases accepted, as
`JSON.parse` does; the serializer emits lowercase). -/
def hexVal (c : Char) : Option Nat :=
  if 48 ≤ c.toNat ∧ c.toNat ≤ 57 then some (c.toNat - 48)
  else if 97 ≤ c.toNat ∧ c.toNat ≤ 102 then some (c.toNat - 87)
  else if 65 ≤ c.toNat ∧ c.toNat ≤ 70 then some (c.toNat - 55)
  else none

/-- The character denoted by a single-character JSON escape, if any. -/
def unescChar (e : Char) : Option Char :=
  if e = '"' then some '"'
  else if e = '\\' then some '\\'
  else if e = '/' then some '/'
  else if e = 'b' then some (Char.ofNat 8)
  else if e = 't' then some (Char.ofNat 9)
  else if e = 'n' then some (Char.ofNat 10)
  else if e = 'f' then some (Char.ofNat 12)
  else if e = 'r' then some (Char.ofNat 13)
  else none

/-- Parse the body of a JSON string literal (the opening quote already
consumed) up to and including the closing quote, undoing the escapes of
`escapeChar`.  Raw control characters are rejected, as `JSON.parse` does. -/
def parseStringBody : Chars → Option (Chars × Chars)
  | [] => none
  | c :: rest =>
    if c = '"' then some ([], rest)
    else if c = '\\' then
      match rest with
      | 'u' :: h1 :: h2 :: h3 :: h4 :: rest2 =>
        match hexVal h1, hexVal h2, hexVal h3, hexVal h4 with
        | some d1, some d2, some d3, some d4 =>
          (match parseStringBody rest2 with
           | some (s, r) => some (Char.ofNat (((d1 * 16 + d2) * 16 + d3) * 16 + d4) :: s, r)
           | none => none)
        | _, _, _, _ => none
      | e :: rest2 =>
        (match unescChar e with
         | some c2 =>
           (match parseStringBody rest2 with
            | some (s, r) => some (c2 :: s, r)
            | none => none)
         | none => none)
      | [] => none
    else if c.toNat < 32 then none
    else
      match parseStringBody rest with
      | some (s, r) => some (c :: s, r)
      | none => none
termination_by structural l => l

/-- Decimal digit test. -/
def isDigitCh (c : Char) : Bool := 48 ≤ c.toNat && c.toNat ≤ 57

/-- Value of a most-significant-first digit string. -/
def digitsVal (l : Chars) : Nat := l.foldl (fun acc c => acc * 10 + (c.toNat - 48)) 0

/-- Parse a (sign and) digit run, as the numeric case of `JSON.parse`
restricted to the integer forms the serializer emits. -/
def parseNum : Chars → Option (Int × Chars)
  | [] => none
  | c :: rest =>
    if c = '-' then
      match rest.takeWhile isDigitCh with
      | [] => none
      | ds => some (-(digitsVal ds : Int), rest.dropWhile isDigitCh)
    else
      match (c :: rest).takeWhile isDigitCh with
      | [] => none
      | ds => some ((digitsVal ds : Int), (c :: rest).dropWhile isDigitCh)

/-- Parse one or more comma-separated array elements followed by `]`,
using `pj` to parse each element; `fuel` bounds the element count. -/
def parseElemsGo (pj : Chars → Option (Json × Chars)) : Nat → Chars → Option (List Json × Chars)
  | 0, _ => none
  | fuel + 1, l =>
    match pj l with
    | some (j, r) =>
      match r with
      | ',' :: r2 =>
        (match parseElemsGo pj fuel r2 with
         | some (es, r3) => some (j :: es, r3)
         | none => none)
      | ']' :: r2 => some ([j], r2)
      | _ => none
    | none => none

/-- Parse one or more comma-separated object fields followed by the closing
brace, using `pj` to parse each field value. -/
def parseFieldsGo (pj : Chars → Option (Json × Chars)) :
    Nat → Chars → Option (List (Chars × Json) × Chars)
  | 0, _ => none
  | fuel + 1, l =>
    match l with
    | '"' :: r0 =>
      (match parseStringBody r0 with
       | some (k, r1) =>
         (match r1 with
          | ':' :: r2 =>
            (match pj r2 with
             | some (v, r3) =>
               (match r3 with
                | ',' :: r4 =>
                  (match parseFieldsGo pj fuel r4 with
                   | some (fs, r5) => some ((k, v) :: fs, r5)
                   | none => none)
                | r30 :: r4 =>
                  if r30 = '\x7d' then some ([(k, v)], r4) else none
                | [] => none)
             | none => none)
          | _ => none)
       | none => none)
    | _ => none

/-- One layer of the JSON value parser: dispatch on the first character,
delegating array-element and object-field loops to `pe` and `pf`. -/
def parseJsonStep (pe : Chars → Option (List Json × Chars))
    (pf : Chars → Option (List (Chars × Json) × Chars)) (l : Chars) :
    Option (Json × Chars) :=
  match l with
  | [] => none
  | c :: rest =>
    if c = 'n' then
      match rest with
      | 'u' :: 'l' :: 'l' :: r => some (.null, r)
      | _ => none
    else if c = 't' then
      match rest with
      | 'r' :: 'u' :: 'e' :: r => some (.bool true, r)
      | _ => none
    else if c = 'f' then
      match rest with
      | 'a' :: 'l' :: 's' :: 'e' :: r => some (.bool false, r)
      | _ => none
    else if c = '"' then
      match parseStringBody rest with
      | some (s, r) => some (.str s, r)
      | none => none
    else if c = '[' then
      match rest with
      | [] => none
      | r0 :: rtail =>
        if r0 = ']' then some (.arr [], rtail)
        else
          match pe (r0 :: rtail) with
          | some (es, r) => some (.arr es, r)
          | none => none
    else if c = '\x7b' then
      match rest with
      | [] => none
      | r0 :: rtail =>
        if r0 = '\x7d' then some (.obj [], rtail)
        else
          match pf (r0 :: rtail) with
          | some (fs, r) => some (.obj fs, r)
          | none => none
    else
      match parseNum (c :: rest) with
      | some (n, r) => some (.num n, r)
      | none => none

/-- Fuel-indexed JSON parser: parses one value off the front of the input
and returns it with the remaining input. -/
def parseJsonF : Nat → Chars → Option (Json × Chars)
  | 0, _ => none
  | fuel + 1, l =>
    parseJsonStep (parseElemsGo (parseJsonF fuel) fuel)
      (parseFieldsGo (parseJsonF fuel) fuel) l

/-- `JSON.parse(s)`, as the verified paths use it: a whole-input parse of
the whitespace-free serializations produced by `jsonStringify`. -/
def jsonParse (s : Chars) : Option Json :=
  match parseJsonF (s.length + 1) s with
  | some (j, []) => some j
  | _ => none


/-! ## Round-trip correctness of the serializer/parser pair -/

theorem digitChar_toNat : ∀ d < 10, (digitChar d).toNat = 48 + d := by decide

theorem digitChar_isDigit : ∀ d < 10, isDigitCh (digitChar d) = true := by decide

theorem digitsVal_append_one (A : Chars) (c : Char) :
    digitsVal (A ++ [c]) = digitsVal A * 10 + (c.toNat - 48) := by
  simp [digitsVal, List.foldl_append]

theorem natToCharsAux_zero (fuel : Nat) : natToCharsAux fuel 0 = [] := by
  cases fuel <;> rfl

theorem natToCharsAux_spec : ∀ fuel n, 0 < n → n ≤ fuel →
    natToCharsAux fuel n ≠ [] ∧ (∀ c ∈ natToCharsAux fuel n, isDigitCh c = true) ∧
      digitsVal (natToCharsAux fuel n) = n := by
  intro fuel
  induction fuel with
  | zero => intro n h1 h2; omega
  | succ f ih =>
    intro n h1 h2
    obtain ⟨m, rfl⟩ : ∃ m, n = m + 1 := ⟨n - 1, by omega⟩
    have hunfold : natToCharsAux (f + 1) (m + 1) =
        natToCharsAux f ((m + 1) / 10) ++ [digitChar ((m + 1) % 10)] := rfl
    have hmod : (m + 1) % 10 < 10 := Nat.mod_lt _ (by omega)
    by_cases hq : (m + 1) / 10 = 0
    · rw [hunfold, hq, natToCharsAux_zero]
      refine ⟨by simp, ?_, ?_⟩
      · intro c hc
        simp at hc
        subst hc
        exact digitChar_isDigit _ hmod
      · have : m + 1 < 10 := by omega
        simp [digitsVal, digitChar_toNat _ hmod]
        omega
    · have hqle : (m + 1) / 10 ≤ f := by
        have := Nat.div_lt_self (by omega : 0 < m + 1) (by omega : 1 < 10)
        omega
      obtain ⟨hne, hall, hval⟩ := ih ((m + 1) / 10) (by omega) hqle
      rw [hunfold]
      refine ⟨by simp, ?_, ?_⟩
      · intro c hc
        rcases List.mem_append.mp hc with h | h
        · exact hall c h
        · simp at h; subst h; exact digitChar_isDigit _ hmod
      · rw [digitsVal_append_one, hval, digitChar_toNat _ hmod]
        omega

theorem natToChars_spec (n : Nat) :
    natToChars n ≠ [] ∧ (∀ c ∈ natToChars n, isDigitCh c = true) ∧
      digitsVal (natToChars n) = n := by
  by_cases h : n = 0
  · subst h
    refine ⟨by simp [natToChars], ?_, by simp [natToChars, digitsVal]⟩
    intro c hc
    simp [natToChars] at hc
    subst hc
    decide
  · rw [natToChars, if_neg h]
    exact natToCharsAux_spec n n (by omega) le_rfl

theorem takeWhile_append_all (p : Char → Bool) :
    ∀ (A B : Chars), (∀ a ∈ A, p a = true) → (∀ b bs, B = b :: bs → p b = false) →
      (A ++ B).takeWhile p = A ∧ (A ++ B).dropWhile p = B := by
  intro A
  induction A with
  | nil =>
    intro B _ hB
    cases B with
    | nil => simp
    | cons b bs => simp [List.takeWhile, List.dropWhile, hB b bs rfl]
  | cons a A ih =>
    intro B hA hB
    have hpa : p a = true := hA a (by simp)
    have := ih B (fun x hx => hA x (by simp [hx])) hB
    simp [List.takeWhile, List.dropWhile, hpa, this.1, this.2]

/-- The continuations a serialized value is followed by inside a larger
serialization: end of input, a comma, or a closing bracket or brace. -/
def delimOk : Chars → Prop
  | [] => True
  | c :: _ => c = ',' ∨ c = ']' ∨ c = '\x7d'

theorem delimOk_not_digit : ∀ rest, delimOk rest →
    ∀ b bs, rest = b :: bs → isDigitCh b = false := by
  intro rest h b bs hb
  subst hb
  rcases h with h | h | h <;> subst h <;> decide

theorem parseNum_intToChars (n : Int) (rest : Chars) (hrest : delimOk rest) :
    parseNum (intToChars n ++ rest) = some (n, rest) := by
  have hdelim : ∀ b bs, rest = b :: bs → isDigitCh b = false :=
    delimOk_not_digit rest hrest
  by_cases hn : n < 0
  · obtain ⟨hne, hall, hval⟩ := natToChars_spec n.natAbs
    have hsplit := takeWhile_append_all isDigitCh (natToChars n.natAbs) rest hall hdelim
    rw [intToChars, if_pos hn, List.cons_append, parseNum]
    rw [if_pos rfl]
    rw [hsplit.1, hsplit.2]
    obtain ⟨c, t, hc⟩ := List.exists_cons_of_ne_nil hne
    rw [hc]
    show some (-(digitsVal (c :: t) : Int), rest) = some (n, rest)
    have hv : digitsVal (c :: t) = n.natAbs := by rw [← hc]; exact hval
    rw [hv]
    have : -(n.natAbs : Int) = n := by omega
    rw [this]
  · obtain ⟨hne, hall, hval⟩ := natToChars_spec n.toNat
    have hsplit := takeWhile_append_all isDigitCh (natToChars n.toNat) rest hall hdelim
    obtain ⟨c, t, hc⟩ := List.exists_cons_of_ne_nil hne
    have hcd : isDigitCh c = true := hall c (by rw [hc]; simp)
    have hcm : c ≠ '-' := by
      intro h
      rw [h] at hcd
      exact absurd hcd (by decide)
    rw [intToChars, if_neg hn, hc, List.cons_append, parseNum, if_neg hcm,
      ← List.cons_append, ← hc, hsplit.1, hsplit.2, hc]
    show some ((digitsVal (c :: t) : Int), rest) = some (n, rest)
    have hv : digitsVal (c :: t) = n.toNat := by rw [← hc]; exact hval
    rw [hv]
    have : ((n.toNat : Nat) : Int) = n := by omega
    rw [this]

theorem hexDigitChar_hexVal : ∀ d < 16, hexVal (hexDigitChar d) = some d := by decide

theorem parseStringBody_roundtrip : ∀ (s rest : Chars),
    parseStringBody (s.flatMap escapeChar ++ '"' :: rest) = some (s, rest) := by
  intro s
  induction s with
  | nil =>
    intro rest
    rw [List.flatMap_nil, List.nil_append, parseStringBody.eq_def]
    rfl
  | cons c s ih =>
    intro rest
    rw [List.flatMap_cons, List.append_assoc]
    by_cases h1 : c = '"'
    · subst h1
      rw [show escapeChar '"' = ['\\', '"'] from rfl]
      simp only [List.cons_append, List.nil_append]
      rw [show ∀ T : Chars, parseStringBody ('\\' :: '"' :: T) =
          (match parseStringBody T with
           | some (s, r) => some ('"' :: s, r)
           | none => none) from fun T => rfl]
      rw [ih]
    · by_cases h2 : c = '\\'
      · subst h2
        rw [show escapeChar '\\' = ['\\', '\\'] from rfl]
        simp only [List.cons_append, List.nil_append]
        rw [show ∀ T : Chars, parseStringBody ('\\' :: '\\' :: T) =
            (match parseStringBody T with
             | some (s, r) => some ('\\' :: s, r)
             | none => none) from fun T => rfl]
        rw [ih]
      · by_cases h3 : c.toNat = 8
        · rw [escapeChar, if_neg h1, if_neg h2, if_pos h3]
          simp only [List.cons_append, List.nil_append]
          rw [show ∀ T : Chars, parseStringBody ('\\' :: 'b' :: T) =
              (match parseStringBody T with
               | some (s, r) => some (Char.ofNat 8 :: s, r)
               | none => none) from fun T => rfl]
          rw [ih, show Char.ofNat 8 = c from h3 ▸ Char.ofNat_toNat c]
        · by_cases h4 : c.toNat = 9
          · rw [escapeChar, if_neg h1, if_neg h2, if_neg h3, if_pos h4]
            simp only [List.cons_append, List.nil_append]
            rw [show ∀ T : Chars, parseStringBody ('\\' :: 't' :: T) =
                (match parseStringBody T with
                 | some (s, r) => some (Char.ofNat 9 :: s, r)
                 | none => none) from fun T => rfl]
            rw [ih, show Char.ofNat 9 = c from h4 ▸ Char.ofNat_toNat c]
          · by_cases h5 : c.toNat = 10
            · rw [escapeChar, if_neg h1, if_neg h2, if_neg h3, if_neg h4, if_pos h5]
              simp only [List.cons_append, List.nil_append]
              rw [show ∀ T : Chars, parseStringBody ('\\' :: 'n' :: T) =
                  (match parseStringBody T with
                   | some (s, r) => some (Char.ofNat 10 :: s, r)
                   | none => none) from fun T => rfl]
              rw [ih, show Char.ofNat 10 = c from h5 ▸ Char.ofNat_toNat c]
            · by_cases h6 : c.toNat = 12
              · rw [escapeChar, if_neg h1, if_neg h2, if_neg h3, if_neg h4, if_neg h5, if_pos h6]
                simp only [List.cons_append, List.nil_append]
                rw [show ∀ T : Chars, parseStringBody ('\\' :: 'f' :: T) =
                    (match parseStringBody T with
                     | some (s, r) => some (Char.ofNat 12 :: s, r)
                     | none => none) from fun T => rfl]
                rw [ih, show Char.ofNat 12 = c from h6 ▸ Char.ofNat_toNat c]
              · by_cases h7 : c.toNat = 13
                · rw [escapeChar, if_neg h1, if_neg h2, if_neg h3, if_neg h4, if_neg h5,
                    if_neg h6, if_pos h7]
                  simp only [List.cons_append, List.nil_append]
                  rw [show ∀ T : Chars, parseStringBody ('\\' :: 'r' :: T) =
                      (match parseStringBody T with
                       | some (s, r) => some (Char.ofNat 13 :: s, r)
                       | none => none) from fun T => rfl]
                  rw [ih, show Char.ofNat 13 = c from h7 ▸ Char.ofNat_toNat c]
                · by_cases h8 : c.toNat < 32
                  · rw [escapeChar, if_neg h1, if_neg h2, if_neg h3, if_neg h4, if_neg h5,
                      if_neg h6, if_neg h7, if_pos h8]
                    have hdiv : c.toNat / 16 < 16 := by omega
                    have hmod : c.toNat % 16 < 16 := by omega
                    simp only [List.cons_append, List.nil_append]
                    rw [show ∀ (x y : Char) (T : Chars),
                        parseStringBody ('\\' :: 'u' :: '0' :: '0' :: x :: y :: T) =
                        (match hexVal '0', hexVal '0', hexVal x, hexVal y with
                         | some d1, some d2, some d3, some d4 =>
                           (match parseStringBody T with
                            | some (s, r) =>
                              some (Char.ofNat (((d1 * 16 + d2) * 16 + d3) * 16 + d4) :: s, r)
                            | none => none)
                         | _, _, _, _ => none) from fun x y T => rfl]
                    rw [hexDigitChar_hexVal _ hdiv, hexDigitChar_hexVal _ hmod,
                      show hexVal '0' = some 0 from rfl]
                    dsimp only
                    rw [ih]
                    have hch : Char.ofNat (((0 * 16 + 0) * 16 + c.toNat / 16) * 16 + c.toNat % 16)
                        = c := by
                      rw [show ((0 * 16 + 0) * 16 + c.toNat / 16) * 16 + c.toNat % 16 = c.toNat
                        from by omega, Char.ofNat_toNat]
                    rw [hch]
                  · rw [escapeChar, if_neg h1, if_neg h2, if_neg h3, if_neg h4, if_neg h5,
                      if_neg h6, if_neg h7, if_neg h8]
                    rw [List.cons_append, List.nil_append, parseStringBody.eq_def]
                    dsimp only
                    rw [if_neg h1, if_neg h2, if_neg (by omega : ¬ c.toNat < 32), ih]

theorem intToChars_ne_nil (n : Int) : intToChars n ≠ [] := by
  rw [intToChars]
  by_cases h : n < 0
  · rw [if_pos h]; simp
  · rw [if_neg h]; exact (natToChars_spec n.toNat).1

theorem stringify_head (j : Json) :
    ∃ c t, jsonStringify j = c :: t ∧ c ≠ ']' := by
  cases j with
  | null => exact ⟨'n', "ull".toList, by simp [jsonStringify], by decide⟩
  | bool b =>
    cases b with
    | false => exact ⟨'f', "alse".toList, by simp [jsonStringify], by decide⟩
    | true => exact ⟨'t', "rue".toList, by simp [jsonStringify], by decide⟩
  | num n =>
    have hs : jsonStringify (.num n) = intToChars n := by simp [jsonStringify]
    rw [hs, intToChars]
    by_cases h : n < 0
    · rw [if_pos h]; exact ⟨'-', _, rfl, by decide⟩
    · rw [if_neg h]
      obtain ⟨hne, hall, _⟩ := natToChars_spec n.toNat
      obtain ⟨c, t, hc⟩ := List.exists_cons_of_ne_nil hne
      refine ⟨c, t, hc, ?_⟩
      have hd : isDigitCh c = true := hall c (by rw [hc]; simp)
      intro h2
      rw [h2] at hd
      exact absurd hd (by decide)
  | str s =>
    exact ⟨'"', s.flatMap escapeChar ++ ['"'], by simp [jsonStringify, quoteChars], by decide⟩
  | arr es => exact ⟨'[', stringifyElems es ++ [']'], by simp [jsonStringify], by decide⟩
  | obj fs => exact ⟨'\x7b', stringifyFields fs ++ ['\x7d'], by simp [jsonStringify], by decide⟩

mutual

theorem jsize_le_length : ∀ j : Json, jsize j ≤ (jsonStringify j).length
  | .null => by simp [jsize, jsonStringify]
  | .bool b => by cases b <;> simp [jsize, jsonStringify]
  | .num n => by
    have h := intToChars_ne_nil n
    have h2 : 1 ≤ (intToChars n).length := by
      cases h' : intToChars n with
      | nil => exact absurd h' h
      | cons a t => simp
    simpa [jsize, jsonStringify] using h2
  | .str s => by simp [jsize, jsonStringify, quoteChars]
  | .arr es => by
    have h := esize_le_length es
    simp only [jsize, jsonStringify, List.length_cons, List.length_append,
      List.length_singleton]
    omega
  | .obj fs => by
    have h := fsize_le_length fs
    simp only [jsize, jsonStringify, List.length_cons, List.length_append,
      List.length_singleton]
    omega

theorem esize_le_length : ∀ es : List Json, esize es ≤ (stringifyElems es).length + 1
  | [] => by simp [esize]
  | [j] => by
    have h := jsize_le_length j
    simp only [esize, stringifyElems]
    omega
  | j :: k :: rest => by
    have h1 := jsize_le_length j
    have h2 := esize_le_length (k :: rest)
    simp only [esize] at h2 ⊢
    simp only [stringifyElems, List.length_append, List.length_cons]
    omega

theorem fsize_le_length : ∀ fs : List (Chars × Json), fsize fs ≤ (stringifyFields fs).length + 1
  | [] => by simp [fsize]
  | [(k, v)] => by
    have h := jsize_le_length v
    simp only [fsize, stringifyFields, List.length_append, List.length_cons]
    omega
  | (k, v) :: f :: rest => by
    have h1 := jsize_le_length v
    have h2 := fsize_le_length (f :: rest)
    simp only [fsize] at h2 ⊢
    simp only [stringifyFields, List.length_append, List.length_cons]
    omega

end

theorem jsize_pos (j : Json) : 1 ≤ jsize j := by
  cases j <;> simp [jsize]

theorem numHead_ne (c : Char) (h : c = '-' ∨ isDigitCh c = true) :
    c ≠ 'n' ∧ c ≠ 't' ∧ c ≠ 'f' ∧ c ≠ '"' ∧ c ≠ '[' ∧ c ≠ '\x7b' := by
  rcases h with h | h
  · subst h
    exact ⟨by decide, by decide, by decide, by decide, by decide, by decide⟩
  · refine ⟨?_, ?_, ?_, ?_, ?_, ?_⟩ <;>
      (intro he; rw [he] at h; exact absurd h (by decide))

theorem intToChars_head (n : Int) :
    ∃ c t, intToChars n = c :: t ∧ (c = '-' ∨ isDigitCh c = true) := by
  rw [intToChars]
  by_cases h : n < 0
  · rw [if_pos h]
    exact ⟨'-', _, rfl, Or.inl rfl⟩
  · rw [if_neg h]
    obtain ⟨hne, hall, _⟩ := natToChars_spec n.toNat
    obtain ⟨c, t, hc⟩ := List.exists_cons_of_ne_nil hne
    exact ⟨c, t, hc, Or.inr (hall c (by rw [hc]; simp))⟩

theorem parseJsonF_succ (f : Nat) (l : Chars) :
    parseJsonF (f + 1) l =
      parseJsonStep (parseElemsGo (parseJsonF f) f) (parseFieldsGo (parseJsonF f) f) l := by
  rw [parseJsonF.eq_def]

theorem parseElemsGo_succ (pj : Chars → Option (Json × Chars)) (f : Nat) (l : Chars) :
    parseElemsGo pj (f + 1) l =
      (match pj l with
       | some (j, r) =>
         (match r with
          | ',' :: r2 =>
            (match parseElemsGo pj f r2 with
             | some (es, r3) => some (j :: es, r3)
             | none => none)
          | ']' :: r2 => some ([j], r2)
          | _ => none)
       | none => none) := by
  rw [parseElemsGo.eq_def]

theorem parseFieldsGo_succ (pj : Chars → Option (Json × Chars)) (f : Nat) (l : Chars) :
    parseFieldsGo pj (f + 1) l =
      (match l with
       | '"' :: r0 =>
         (match parseStringBody r0 with
          | some (k, r1) =>
            (match r1 with
             | ':' :: r2 =>
               (match pj r2 with
                | some (v, r3) =>
                  (match r3 with
                   | ',' :: r4 =>
                     (match parseFieldsGo pj f r4 with
                      | some (fs, r5) => some ((k, v) :: fs, r5)
                      | none => none)
                   | r30 :: r4 =>
                     if r30 = '\x7d' then some ([(k, v)], r4) else none
                   | [] => none)
                | none => none)
             | _ => none)
          | none => none)
       | _ => none) := by
  rw [parseFieldsGo.eq_def]

theorem parseJsonStep_null (pe) (pf) (rest : Chars) :
    parseJsonStep pe pf ('n' :: 'u' :: 'l' :: 'l' :: rest) = some (.null, rest) := rfl

theorem parseJsonStep_true (pe) (pf) (rest : Chars) :
    parseJsonStep pe pf ('t' :: 'r' :: 'u' :: 'e' :: rest) = some (.bool true, rest) := rfl

theorem parseJsonStep_false (pe) (pf) (rest : Chars) :
    parseJsonStep pe pf ('f' :: 'a' :: 'l' :: 's' :: 'e' :: rest) = some (.bool false, rest) := rfl

theorem parseJsonStep_quote (pe) (pf) (l : Chars) :
    parseJsonStep pe pf ('"' :: l) =
      (match parseStringBody l with
       | some (s, r) => some (.str s, r)
       | none => none) := rfl

theorem parseJsonStep_brack (pe) (pf) (r0 : Char) (rtail : Chars) :
    parseJsonStep pe pf ('[' :: r0 :: rtail) =
      (if r0 = ']' then some (.arr [], rtail)
       else
        match pe (r0 :: rtail) with
        | some (es, r) => some (.arr es, r)
        | none => none) := rfl

theorem parseJsonStep_brace (pe) (pf) (r0 : Char) (rtail : Chars) :
    parseJsonStep pe pf ('\x7b' :: r0 :: rtail) =
      (if r0 = '\x7d' then some (.obj [], rtail)
       else
        match pf (r0 :: rtail) with
        | some (fs, r) => some (.obj fs, r)
        | none => none) := rfl

theorem parseJsonStep_other (pe) (pf) (c : Char) (rest : Chars)
    (h1 : c ≠ 'n') (h2 : c ≠ 't') (h3 : c ≠ 'f') (h4 : c ≠ '"') (h5 : c ≠ '[')
    (h6 : c ≠ '\x7b') :
    parseJsonStep pe pf (c :: rest) =
      (match parseNum (c :: rest) with
       | some (n, r) => some (.num n, r)
       | none => none) := by
  rw [parseJsonStep.eq_def]
  dsimp only
  rw [if_neg h1, if_neg h2, if_neg h3, if_neg h4, if_neg h5, if_neg h6]

theorem mem_esize_le {x : Json} : ∀ {es : List Json}, x ∈ es → 1 + jsize x ≤ esize es := by
  intro es
  induction es with
  | nil => intro h; cases h
  | cons y ys ih =>
    intro h
    rw [esize]
    rcases List.mem_cons.mp h with h | h
    · subst h; omega
    · have := ih h; omega

theorem length_le_esize : ∀ es : List Json, es.length ≤ esize es := by
  intro es
  induction es with
  | nil => simp [esize]
  | cons y ys ih => rw [esize]; simp; omega

theorem mem_fsize_le {kv : Chars × Json} :
    ∀ {fs : List (Chars × Json)}, kv ∈ fs → 1 + jsize kv.2 ≤ fsize fs := by
  intro fs
  induction fs with
  | nil => intro h; cases h
  | cons y ys ih =>
    intro h
    obtain ⟨k2, v2⟩ := y
    rw [fsize]
    rcases List.mem_cons.mp h with h | h
    · subst h; dsimp only; omega
    · have := ih h; omega

theorem length_le_fsize : ∀ fs : List (Chars × Json), fs.length ≤ fsize fs := by
  intro fs
  induction fs with
  | nil => simp [fsize]
  | cons y ys ih => obtain ⟨k2, v2⟩ := y; rw [fsize]; simp; omega

theorem stringify_null_eq : jsonStringify .null = 'n' :: 'u' :: 'l' :: 'l' :: [] := by
  have h : jsonStringify .null = "null".toList := by simp [jsonStringify]
  rw [h]; rfl

theorem stringify_true_eq : jsonStringify (.bool true) = 't' :: 'r' :: 'u' :: 'e' :: [] := by
  have h : jsonStringify (.bool true) = "true".toList := by simp [jsonStringify]
  rw [h]; rfl

theorem stringify_false_eq :
    jsonStringify (.bool false) = 'f' :: 'a' :: 'l' :: 's' :: 'e' :: [] := by
  have h : jsonStringify (.bool false) = "false".toList := by simp [jsonStringify]
  rw [h]; rfl

theorem parseElemsGo_spec :
    ∀ (es : List Json) (pj : Chars → Option (Json × Chars)) (fuel : Nat) (rest : Chars),
      es ≠ [] → es.length ≤ fuel →
      (∀ x ∈ es, ∀ r', delimOk r' → pj (jsonStringify x ++ r') = some (x, r')) →
      parseElemsGo pj fuel (stringifyElems es ++ ']' :: rest) = some (es, rest) := by
  intro es
  induction es with
  | nil => intro pj fuel rest h; exact absurd rfl h
  | cons x tail ih =>
    intro pj fuel rest _ hlen hall
    obtain ⟨f, rfl⟩ : ∃ f, fuel = f + 1 := ⟨fuel - 1, by simp at hlen; omega⟩
    rw [parseElemsGo_succ]
    cases tail with
    | nil =>
      rw [show stringifyElems [x] = jsonStringify x from by simp [stringifyElems]]
      rw [hall x (by simp) (']' :: rest) (by simp [delimOk])]
      rfl
    | cons y ys =>
      rw [show stringifyElems (x :: y :: ys)
          = jsonStringify x ++ ',' :: stringifyElems (y :: ys) from by simp [stringifyElems]]
      rw [List.append_assoc, List.cons_append]
      rw [hall x (by simp) _ (by simp [delimOk])]
      have htl : parseElemsGo pj f (stringifyElems (y :: ys) ++ ']' :: rest)
          = some (y :: ys, rest) := by
        refine ih pj f rest (by simp) (by simp at hlen ⊢; omega) ?_
        intro z hz r' hd
        exact hall z (by simp [List.mem_cons] at hz ⊢; tauto) r' hd
      show (match parseElemsGo pj f (stringifyElems (y :: ys) ++ ']' :: rest) with
            | some (es, r3) => some (x :: es, r3)
            | none => none) = some (x :: y :: ys, rest)
      rw [htl]

theorem parseFieldsGo_quote (pj : Chars → Option (Json × Chars)) (f : Nat) (r0 : Chars) :
    parseFieldsGo pj (f + 1) ('"' :: r0) =
      (match parseStringBody r0 with
       | some (k, r1) =>
         (match r1 with
          | ':' :: r2 =>
            (match pj r2 with
             | some (v, r3) =>
               (match r3 with
                | ',' :: r4 =>
                  (match parseFieldsGo pj f r4 with
                   | some (fs, r5) => some ((k, v) :: fs, r5)
                   | none => none)
                | r30 :: r4 => if r30 = '\x7d' then some ([(k, v)], r4) else none
                | [] => none)
             | none => none)
          | _ => none)
       | none => none) := by
  rw [parseFieldsGo_succ]
  rfl

theorem parseFieldsGo_spec :
    ∀ (fs : List (Chars × Json)) (pj : Chars → Option (Json × Chars)) (fuel : Nat)
      (rest : Chars),
      fs ≠ [] → fs.length ≤ fuel →
      (∀ kv ∈ fs, ∀ r', delimOk r' → pj (jsonStringify kv.2 ++ r') = some (kv.2, r')) →
      parseFieldsGo pj fuel (stringifyFields fs ++ '\x7d' :: rest) = some (fs, rest) := by
  intro fs
  induction fs with
  | nil => intro pj fuel rest h; exact absurd rfl h
  | cons kv tail ih =>
    obtain ⟨k, v⟩ := kv
    intro pj fuel rest _ hlen hall
    obtain ⟨f, rfl⟩ : ∃ f, fuel = f + 1 := ⟨fuel - 1, by simp at hlen; omega⟩
    cases tail with
    | nil =>
      rw [show stringifyFields [(k, v)] = quoteChars k ++ ':' :: jsonStringify v from by
        simp [stringifyFields]]
      rw [quoteChars]
      simp only [List.cons_append, List.append_assoc, List.singleton_append, List.nil_append]
      rw [parseFieldsGo_quote, parseStringBody_roundtrip]
      have hv := hall (k, v) (by simp) ('\x7d' :: rest) (by simp [delimOk])
      dsimp only at hv
      show (match pj (jsonStringify v ++ '\x7d' :: rest) with
            | some (v2, r3) =>
              (match r3 with
               | ',' :: r4 =>
                 (match parseFieldsGo pj f r4 with
                  | some (fs, r5) => some ((k, v2) :: fs, r5)
                  | none => none)
               | r30 :: r4 => if r30 = '\x7d' then some ([(k, v2)], r4) else none
               | [] => none)
            | none => none) = some ([(k, v)], rest)
      rw [hv]
      rfl
    | cons t ts =>
      rw [show stringifyFields ((k, v) :: t :: ts)
          = quoteChars k ++ ':' :: jsonStringify v ++ ',' :: stringifyFields (t :: ts) from by
        simp [stringifyFields]]
      rw [quoteChars]
      simp only [List.cons_append, List.append_assoc, List.singleton_append, List.nil_append]
      rw [parseFieldsGo_quote, parseStringBody_roundtrip]
      have hv := hall (k, v) (by simp) (',' :: (stringifyFields (t :: ts) ++ '\x7d' :: rest))
        (by simp [delimOk])
      dsimp only at hv
      show (match pj (jsonStringify v
              ++ ',' :: (stringifyFields (t :: ts) ++ '\x7d' :: rest)) with
            | some (v2, r3) =>
              (match r3 with
               | ',' :: r4 =>
                 (match parseFieldsGo pj f r4 with
                  | some (fs, r5) => some ((k, v2) :: fs, r5)
                  | none => none)
               | r30 :: r4 => if r30 = '\x7d' then some ([(k, v2)], r4) else none
               | [] => none)
            | none => none) = some ((k, v) :: t :: ts, rest)
      rw [hv]
      have htl : parseFieldsGo pj f (stringifyFields (t :: ts) ++ '\x7d' :: rest)
          = some (t :: ts, rest) := by
        refine ih pj f rest (by simp) (by simp at hlen ⊢; omega) ?_
        intro z hz r' hd
        exact hall z (by simp [List.mem_cons] at hz ⊢; tauto) r' hd
      show (match parseFieldsGo pj f (stringifyFields (t :: ts) ++ '\x7d' :: rest) with
            | some (fs, r5) => some ((k, v) :: fs, r5)
            | none => none) = some ((k, v) :: t :: ts, rest)
      rw [htl]

theorem parseJsonF_spec : ∀ (fuel : Nat) (j : Json) (rest : Chars),
    jsize j < fuel → delimOk rest →
    parseJsonF fuel (jsonStringify j ++ rest) = some (j, rest) := by
  intro fuel
  induction fuel with
  | zero => intro j rest h _; exact absurd h (Nat.not_lt_zero _)
  | succ f ih =>
    intro j rest hsz hrest
    rw [parseJsonF_succ]
    cases j with
    | null =>
      rw [stringify_null_eq]
      simp only [List.cons_append, List.nil_append]
      rw [parseJsonStep_null]
    | bool b =>
      cases b with
      | true =>
        rw [stringify_true_eq]
        simp only [List.cons_append, List.nil_append]
        rw [parseJsonStep_true]
      | false =>
        rw [stringify_false_eq]
        simp only [List.cons_append, List.nil_append]
        rw [parseJsonStep_false]
    | num n =>
      obtain ⟨c, t, hc, hcp⟩ := intToChars_head n
      obtain ⟨hn1, hn2, hn3, hn4, hn5, hn6⟩ := numHead_ne c hcp
      have hs : jsonStringify (.num n) = intToChars n := by simp [jsonStringify]
      rw [hs, hc, List.cons_append,
        parseJsonStep_other _ _ c _ hn1 hn2 hn3 hn4 hn5 hn6,
        ← List.cons_append, ← hc, parseNum_intToChars n rest hrest]
    | str s =>
      have hs : jsonStringify (.str s) = '"' :: (s.flatMap escapeChar ++ ['"']) := by
        simp [jsonStringify, quoteChars]
      rw [hs]
      simp only [List.cons_append, List.append_assoc, List.singleton_append, List.nil_append]
      rw [parseJsonStep_quote, parseStringBody_roundtrip]
    | arr es =>
      cases es with
      | nil =>
        have h1 : jsonStringify (.arr []) = '[' :: ']' :: [] := by
          simp [jsonStringify, stringifyElems]
        rw [h1]
        simp only [List.cons_append, List.nil_append]
        rw [parseJsonStep_brack, if_pos rfl]
      | cons x xs =>
        have harr : jsonStringify (.arr (x :: xs))
            = '[' :: (stringifyElems (x :: xs) ++ [']']) := by simp [jsonStringify]
        obtain ⟨c, t, hcs, hcne⟩ := stringify_head x
        have hE : ∃ tE, stringifyElems (x :: xs) = c :: tE := by
          cases xs with
          | nil => exact ⟨t, by simp [stringifyElems, hcs]⟩
          | cons y ys => exact ⟨t ++ ',' :: stringifyElems (y :: ys),
              by simp [stringifyElems, hcs]⟩
        obtain ⟨tE, htE⟩ := hE
        have hszE : esize (x :: xs) < f + 1 := by
          have : jsize (.arr (x :: xs)) = 1 + esize (x :: xs) := by simp [jsize]
          omega
        rw [harr, htE]
        simp only [List.cons_append, List.append_assoc, List.singleton_append, List.nil_append]
        rw [parseJsonStep_brack, if_neg hcne,
          show c :: (tE ++ ']' :: rest) = (c :: tE) ++ ']' :: rest from rfl, ← htE]
        have hgo : parseElemsGo (parseJsonF f) f (stringifyElems (x :: xs) ++ ']' :: rest)
            = some (x :: xs, rest) := by
          refine parseElemsGo_spec (x :: xs) (parseJsonF f) f rest (by simp) ?_ ?_
          · have := length_le_esize (x :: xs); omega
          · intro z hz r' hd
            have hzs : 1 + jsize z ≤ esize (x :: xs) := mem_esize_le hz
            exact ih z r' (by omega) hd
        rw [hgo]
    | obj fs =>
      cases fs with
      | nil =>
        have h1 : jsonStringify (.obj []) = '\x7b' :: '\x7d' :: [] := by
          simp [jsonStringify, stringifyFields]
        rw [h1]
        simp only [List.cons_append, List.nil_append]
        rw [parseJsonStep_brace, if_pos rfl]
      | cons kv fs0 =>
        obtain ⟨k, v⟩ := kv
        have hobj : jsonStringify (.obj ((k, v) :: fs0))
            = '\x7b' :: (stringifyFields ((k, v) :: fs0) ++ ['\x7d']) := by
          simp [jsonStringify]
        have hF : ∃ tF, stringifyFields ((k, v) :: fs0)
            = '"' :: tF := by
          cases fs0 with
          | nil => exact ⟨(k.flatMap escapeChar ++ ['"']) ++ ':' :: jsonStringify v,
              by simp [stringifyFields, quoteChars]⟩
          | cons t ts => exact ⟨(k.flatMap escapeChar ++ ['"'])
                ++ ':' :: jsonStringify v ++ ',' :: stringifyFields (t :: ts),
              by simp [stringifyFields, quoteChars]⟩
        obtain ⟨tF, htF⟩ := hF
        have hszF : fsize ((k, v) :: fs0) < f + 1 := by
          have : jsize (.obj ((k, v) :: fs0)) = 1 + fsize ((k, v) :: fs0) := by simp [jsize]
          omega
        rw [hobj, htF]
        simp only [List.cons_append, List.append_assoc, List.singleton_append, List.nil_append]
        rw [parseJsonStep_brace, if_neg (by decide : ¬ ('"' : Char) = '\x7d'),
          show '"' :: (tF ++ '\x7d' :: rest) = ('"' :: tF) ++ '\x7d' :: rest from rfl, ← htF]
        have hgo : parseFieldsGo (parseJsonF f) f
            (stringifyFields ((k, v) :: fs0) ++ '\x7d' :: rest)
            = some ((k, v) :: fs0, rest) := by
          refine parseFieldsGo_spec ((k, v) :: fs0) (parseJsonF f) f rest (by simp) ?_ ?_
          · have := length_le_fsize ((k, v) :: fs0); omega
          · intro z hz r' hd
            have hzs : 1 + jsize z.2 ≤ fsize ((k, v) :: fs0) := mem_fsize_le hz
            exact ih z.2 r' (by omega) hd
        rw [hgo]

/-- Round-trip: parsing a serialized JSON value yields the value back; this
is the sense in which the record synthesizer's string-encoded sub-fields are
lossless. -/
theorem jsonParse_stringify (j : Json) : jsonParse (jsonStringify j) = some j := by
  have h := parseJsonF_spec ((jsonStringify j).length + 1) j []
    (by have := jsize_le_length j; omega) (by simp [delimOk])
  rw [List.append_nil] at h
  rw [jsonParse, h]

/-! ## URL classifier (`KIBANA_PATTERNS`, `detectSavedObject`)

Each entry of `KIBANA_PATTERNS` in the content script is a regex of the
shape `<literal prefix>([^?&]+)` (the `slo` pattern also excludes `/` from
the capture).  `String.prototype.match` scans for the leftmost position at
which the whole regex matches: the literal prefix must occur and at least
one capturable character must follow; the `+`-capture is greedy, so the
captured id is the maximal run of non-excluded characters after the
prefix. -/

structure UrlPattern where
  ptype : Chars
  pfx : Chars
  stopSlash : Bool
deriving DecidableEq

/-- The ordered pattern table (object literal key order in the script). -/
def KIBANA_PATTERNS : List UrlPattern := [
  ⟨"dashboard".toList, "/app/dashboards#/view/".toList, false⟩,
  ⟨"visualization".toList, "/app/visualize#/edit/".toList, false⟩,
  ⟨"lens".toList, "/app/lens#/edit/".toList, false⟩,
  ⟨"search".toList, "/app/discover#/view/".toList, false⟩,
  ⟨"map".toList, "/app/maps#/map/".toList, false⟩,
  ⟨"index-pattern".toList, "/app/management/kibana/indexPatterns/patterns/".toList, false⟩,
  ⟨"query".toList, "/app/management/kibana/objects/savedQueries/".toList, false⟩,
  ⟨"slo".toList, "/app/slos/".toList, true⟩,
  ⟨"alert".toList, "/app/management/insightsAndAlerting/triggersActions/rule/".toList, false⟩,
  ⟨"cases".toList, "/app/security/cases/".toList, false⟩]

/-- Characters excluded from a capture: `[^?&]` (plus `/` for `slo`). -/
def stopChar (slash : Bool) (c : Char) : Bool :=
  c = '?' || c = '&' || (slash && c = '/')

/-- Attempt the whole regex at the current position: the literal prefix
followed by a non-empty greedy capture. -/
def tryMatchAt (p : UrlPattern) (l : Chars) : Option Chars :=
  if p.pfx.isPrefixOf l then
    match (l.drop p.pfx.length).takeWhile (fun c => ¬ stopChar p.stopSlash c) with
    | [] => none
    | cap => some cap
  else none

/-- Leftmost-match scan of `url.match(pattern)`. -/
def scanMatch (p : UrlPattern) : Chars → Option Chars
  | [] => tryMatchAt p []
  | c :: rest =>
    match tryMatchAt p (c :: rest) with
    | some cap => some cap
    | none => scanMatch p rest

/-- Per-type alternate-API configuration (`ALTERNATIVE_API_TYPES`). -/
structure AltApi where
  apiPath : Chars → Chars
  fileExtension : Chars

/-- `ALTERNATIVE_API_TYPES` lookup: types exported through a dedicated read
endpoint instead of the saved-objects export API. -/
def ALTERNATIVE_API_TYPES (t : Chars) : Option AltApi :=
  if t = "slo".toList then
    some ⟨fun id => "/api/observability/slos/".toList ++ id, "json".toList⟩
  else if t = "alert".toList then
    some ⟨fun id => "/api/alerting/rule/".toList ++ id, "json".toList⟩
  else none

/-- `NON_EXPORTABLE_TYPES` lookup: types with no known export API, mapped to
the configured reason string. -/
def NON_EXPORTABLE_TYPES (t : Chars) : Option Chars :=
  if t = "cases".toList then
    some "Cases are not exportable via any known API".toList
  else none

/-- The result object of `detectSavedObject`.  `title` is the value of the
DOM scrape `extractTitle()` (an oracle here); the two capability flags are
only assigned when true in the script, which coincides with `Bool`. -/
structure Detected where
  dtype : Chars
  id : Chars
  title : Option Chars
  url : Chars
  useAlternativeApi : Bool
  notExportable : Bool
  notExportableReason : Option Chars
deriving DecidableEq

/-- The pattern loop of `detectSavedObject`: first pattern (in table order)
whose regex matches the URL wins. -/
def detectGo (url : Chars) (domTitle : Option Chars) : List UrlPattern → Option Detected
  | [] => none
  | p :: rest =>
    match scanMatch p url with
    | some id =>
      some { dtype := p.ptype, id := id, title := domTitle, url := url,
             useAlternativeApi := (ALTERNATIVE_API_TYPES p.ptype).isSome,
             notExportable := (NON_EXPORTABLE_TYPES p.ptype).isSome,
             notExportableReason := NON_EXPORTABLE_TYPES p.ptype }
    | none => detectGo url domTitle rest

/-- `detectSavedObject()`: classify the page URL against `KIBANA_PATTERNS`
and attach the capability flags.  `domTitle` stands for `extractTitle()`. -/
def detectSavedObject (url : Chars) (domTitle : Option Chars) : Option Detected :=
  detectGo url domTitle KIBANA_PATTERNS

/-! ## Record synthesizer (`extractPanelTitle`, `extractPanelSubType`,
`constructPanelExport`) -/

/-- `extractPanelTitle(panel)`: the six-location fallback chain, returning
the first truthy candidate and defaulting to `'Untitled Panel'`. -/
def extractPanelTitle (panel : Json) : Json :=
  let ec := jsOr (jsGet panel "embeddableConfig".toList) (.obj [])
  if truthy (jsGet ec "title".toList) then jsGet ec "title".toList
  else if truthy (jsGet (jsGet ec "attributes".toList) "title".toList) then
    jsGet (jsGet ec "attributes".toList) "title".toList
  else if truthy (jsGet (jsGet ec "savedVis".toList) "title".toList) then
    jsGet (jsGet ec "savedVis".toList) "title".toList
  else if truthy (jsGet (jsGet ec "vis".toList) "title".toList) then
    jsGet (jsGet ec "vis".toList) "title".toList
  else if truthy (jsGet (jsGet (jsGet (jsGet ec "attributes".toList) "state".toList)
      "visualization".toList) "title".toList) then
    jsGet (jsGet (jsGet (jsGet ec "attributes".toList) "state".toList)
      "visualization".toList) "title".toList
  else if truthy (jsGet panel "title".toList) then jsGet panel "title".toList
  else .str "Untitled Panel".toList

/-- The `typeMap` of `extractPanelSubType` for Lens visualization types. -/
def lensTypeMap (s : Chars) : Option Chars :=
  if s = "lnsXY".toList then some "xy".toList
  else if s = "lnsMetric".toList then some "metric".toList
  else if s = "lnsPie".toList then some "pie".toList
  else if s = "lnsDatatable".toList then some "table".toList
  else if s = "lnsLegacyMetric".toList then some "metric".toList
  else if s = "lnsGauge".toList then some "gauge".toList
  else if s = "lnsHeatmap".toList then some "heatmap".toList
  else if s = "lnsTagcloud".toList then some "tag cloud".toList
  else if s = "lnsMosaic".toList then some "mosaic".toList
  else if s = "lnsPartition".toList then some "partition".toList
  else none

/-- `s.replace(/_/g, ' ')`. -/
def underscoresToSpaces (s : Chars) : Chars :=
  s.map (fun c => if c = '_' then ' ' else c)

/-- `s.replace(/^lns/, '').toLowerCase()`. -/
def stripLnsLower (s : Chars) : Chars :=
  (if "lns".toList.isPrefixOf s then s.drop 3 else s).map Char.toLower

/-- `extractPanelSubType(panel)`.  The script calls `.replace` on the
`preferredSeriesType`/`visualizationType` values when they are truthy, so a
truthy non-string value there raises a `TypeError`; that is the `.error`
case, which the aggregator's `try`/`catch` turns into the DOM fallback. -/
def extractPanelSubType (panel : Json) : Except Unit Json :=
  let ec := jsOr (jsGet panel "embeddableConfig".toList) (.obj [])
  let attributes := jsOr (jsGet ec "attributes".toList) (.obj [])
  let state := jsOr (jsGet attributes "state".toList) (.obj [])
  let visualization := jsOr (jsGet state "visualization".toList) (.obj [])
  if jsStrictEq (jsGet panel "type".toList) (.str "lens".toList) then
    if truthy (jsGet visualization "preferredSeriesType".toList) then
      match jsGet visualization "preferredSeriesType".toList with
      | .str s => .ok (.str (underscoresToSpaces s))
      | _ => .error ()
    else if truthy (jsGet attributes "visualizationType".toList) then
      match jsGet attributes "visualizationType".toList with
      | .str s =>
        (match lensTypeMap s with
         | some friendly => .ok (.str friendly)
         | none => .ok (.str (stripLnsLower s)))
      | _ => .error ()
    else .ok .null
  else if jsStrictEq (jsGet panel "type".toList) (.str "visualization".toList) then
    let savedVis := jsOr (jsGet ec "savedVis".toList) (.obj [])
    if truthy (jsGet savedVis "type".toList) then .ok (jsGet savedVis "type".toList)
    else .ok .null
  else .ok .null

/-- `typeof v === 'string' ? v : JSON.stringify(v || d)` as used by the map
branch of the synthesizer. -/
def stringOrStringify (v d : Json) : Chars :=
  match v with
  | .str s => s
  | v => jsonStringify (jsOr v d)

/-- The fields a JavaScript object-literal spread `...v` contributes:
objects contribute their fields, arrays and strings their indexed
elements, and primitives nothing. -/
def spreadFields (v : Json) : List (Chars × Json) :=
  match v with
  | .obj fs => fs
  | .arr es => (es.enum.map (fun e => (natToChars e.1, e.2)))
  | .str s => (s.enum.map (fun e => (natToChars e.1, .str [e.2])))
  | _ => []

/-- Object-literal construction with later keys overriding earlier ones in
place (JavaScript property-update semantics). -/
def objLitInsert (fs : List (Chars × Json)) (kv : Chars × Json) : List (Chars × Json) :=
  if fs.any (fun f => f.1 = kv.1) then
    fs.map (fun f => if f.1 = kv.1 then (f.1, kv.2) else f)
  else fs ++ [kv]

/-- `{ title: t, ...attrs }` of the generic fallback branch. -/
def genericAttrFields (title : Json) (attrs : Json) : List (Chars × Json) :=
  (spreadFields attrs).foldl objLitInsert [("title".toList, title)]

/-- The fixed export-summary line appended by `constructPanelExport`. -/
def exportSummaryJson : Json :=
  .obj [
    ("excludedObjects".toList, .arr []),
    ("excludedObjectsCount".toList, .num 0),
    ("exportedCount".toList, .num 1),
    ("missingRefCount".toList, .num 0),
    ("missingReferences".toList, .arr [])]

/-- The synthetic saved object built by `constructPanelExport`, branch by
panel kind.  `now` models `new Date().toISOString()` and `freshId` models
`crypto.randomUUID()` (used only when `panel.panelIndex` is falsy). -/
def constructPanelSavedObject (panel : Json) (now : Chars) (freshId : Chars) : Json :=
  let panelType := jsGet panel "type".toList
  let embeddableConfig := jsOr (jsGet panel "embeddableConfig".toList) (.obj [])
  let title := extractPanelTitle panel
  let panelId := jsOr (jsGet panel "panelIndex".toList) (.str freshId)
  if jsStrictEq panelType (.str "lens".toList) then
    let attributes := jsOr (jsGet embeddableConfig "attributes".toList) (.obj [])
    let state := jsOr (jsGet attributes "state".toList) (.obj [])
    .obj [
      ("attributes".toList, .obj [
        ("title".toList, title),
        ("description".toList, jsOr (jsGet attributes "description".toList) (.str [])),
        ("visualizationType".toList,
          jsOr (jsGet attributes "visualizationType".toList) (.str "lnsXY".toList)),
        ("state".toList, .str (jsonStringify state))]),
      ("type".toList, .str "lens".toList),
      ("id".toList, panelId),
      ("managed".toList, .bool false),
      ("references".toList, jsOr (jsGet attributes "references".toList) (.arr [])),
      ("coreMigrationVersion".toList, .str "8.8.0".toList),
      ("typeMigrationVersion".toList, .str "8.9.0".toList),
      ("created_at".toList, .str now),
      ("updated_at".toList, .str now)]
  else if jsStrictEq panelType (.str "visualization".toList) then
    let savedVis := jsOr (jsGet embeddableConfig "savedVis".toList) (.obj [])
    let visState : Json := .obj [
      ("type".toList, jsOr (jsGet savedVis "type".toList) (.str "markdown".toList)),
      ("params".toList, jsOr (jsGet savedVis "params".toList) (.obj [])),
      ("aggs".toList, jsOr (jsGet (jsGet savedVis "data".toList) "aggs".toList) (.arr [])),
      ("title".toList, title)]
    let searchSource := jsOr (jsGet (jsGet savedVis "data".toList) "searchSource".toList)
      (.obj [
        ("query".toList, .obj [
          ("language".toList, .str "kuery".toList),
          ("query".toList, .str [])]),
        ("filter".toList, .arr [])])
    .obj [
      ("attributes".toList, .obj [
        ("title".toList, title),
        ("visState".toList, .str (jsonStringify visState)),
        ("uiStateJSON".toList,
          .str (jsonStringify (jsOr (jsGet savedVis "uiState".toList) (.obj [])))),
        ("description".toList, jsOr (jsGet savedVis "description".toList) (.str [])),
        ("version".toList, .num 1),
        ("kibanaSavedObjectMeta".toList, .obj [
          ("searchSourceJSON".toList, .str (jsonStringify searchSource))])]),
      ("type".toList, .str "visualization".toList),
      ("id".toList, panelId),
      ("managed".toList, .bool false),
      ("references".toList, .arr []),
      ("coreMigrationVersion".toList, .str "8.8.0".toList),
      ("typeMigrationVersion".toList, .str "8.5.0".toList),
      ("created_at".toList, .str now),
      ("updated_at".toList, .str now)]
  else if jsStrictEq panelType (.str "map".toList) then
    let attributes := jsOr (jsGet embeddableConfig "attributes".toList) (.obj [])
    .obj [
      ("attributes".toList, .obj [
        ("title".toList, title),
        ("description".toList, jsOr (jsGet attributes "description".toList) (.str [])),
        ("layerListJSON".toList,
          .str (stringOrStringify (jsGet attributes "layerListJSON".toList) (.arr []))),
        ("mapStateJSON".toList,
          .str (stringOrStringify (jsGet attributes "mapStateJSON".toList) (.obj []))),
        ("uiStateJSON".toList,
          .str (stringOrStringify (jsGet attributes "uiStateJSON".toList) (.obj [])))]),
      ("type".toList, .str "map".toList),
      ("id".toList, panelId),
      ("managed".toList, .bool false),
      ("references".toList, jsOr (jsGet attributes "references".toList) (.arr [])),
      ("coreMigrationVersion".toList, .str "8.8.0".toList),
      ("created_at".toList, .str now),
      ("updated_at".toList, .str now)]
  else if jsStrictEq panelType (.str "search".toList) then
    let attributes := jsOr (jsGet embeddableConfig "attributes".toList) (.obj [])
    .obj [
      ("attributes".toList, .obj [
        ("title".toList, title),
        ("description".toList, jsOr (jsGet attributes "description".toList) (.str [])),
        ("columns".toList, jsOr (jsGet attributes "columns".toList) (.arr [])),
        ("sort".toList, jsOr (jsGet attributes "sort".toList) (.arr [])),
        ("kibanaSavedObjectMeta".toList,
          jsOr (jsGet attributes "kibanaSavedObjectMeta".toList)
            (.obj [("searchSourceJSON".toList, .str "\x7b\x7d".toList)]))]),
      ("type".toList, .str "search".toList),
      ("id".toList, panelId),
      ("managed".toList, .bool false),
      ("references".toList, jsOr (jsGet attributes "references".toList) (.arr [])),
      ("coreMigrationVersion".toList, .str "8.8.0".toList),
      ("created_at".toList, .str now),
      ("updated_at".toList, .str now)]
  else
    let attributes := jsOr (jsGet embeddableConfig "attributes".toList) (.obj [])
    .obj [
      ("attributes".toList, .obj (genericAttrFields title attributes)),
      ("type".toList, panelType),
      ("id".toList, panelId),
      ("managed".toList, .bool false),
      ("references".toList, jsOr (jsGet attributes "references".toList) (.arr [])),
      ("coreMigrationVersion".toList, .str "8.8.0".toList),
      ("created_at".toList, .str now),
      ("updated_at".toList, .str now)]

/-- `constructPanelExport(panel, dashboardTitle)`: the synthetic record and
the export summary, newline-joined (NDJSON).  `dashboardTitle` is accepted
and unused, exactly as in the source. -/
def constructPanelExport (panel : Json) (dashboardTitle : Json) (now freshId : Chars) : Chars :=
  jsonStringify (constructPanelSavedObject panel now freshId)
    ++ '\n' :: jsonStringify exportSummaryJson

/-! ## A stable sort model for `Array.prototype.sort`

Since ES2019 `Array.prototype.sort` is required to be stable, and for a
consistent comparator its output is the unique stable order, any stable
sorting algorithm models it; insertion sort is used here.  `le a b` models
`comparator(a, b) <= 0`. -/

def insertLe (le : α → α → Bool) (x : α) : List α → List α
  | [] => [x]
  | y :: t => if le x y then x :: y :: t else y :: insertLe le x t

def insSort (le : α → α → Bool) : List α → List α
  | [] => []
  | x :: t => insertLe le x (insSort le t)

theorem insertLe_perm (le : α → α → Bool) (x : α) :
    ∀ l : List α, (insertLe le x l).Perm (x :: l) := by
  intro l
  induction l with
  | nil => simp [insertLe]
  | cons y t ih =>
    rw [insertLe]
    by_cases h : le x y
    · rw [if_pos h]
    · rw [if_neg h]
      exact (List.Perm.cons y ih).trans (List.Perm.swap x y t)

theorem insSort_perm (le : α → α → Bool) : ∀ l : List α, (insSort le l).Perm l := by
  intro l
  induction l with
  | nil => simp [insSort]
  | cons x t ih =>
    rw [insSort]
    exact (insertLe_perm le x (insSort le t)).trans (List.Perm.cons x ih)

theorem insertLe_pairwise (le : α → α → Bool)
    (htot : ∀ a b, le a b || le b a) (htr : ∀ a b c, le a b → le b c → le a c)
    (x : α) : ∀ l : List α, l.Pairwise (le · · = true) →
      (insertLe le x l).Pairwise (le · · = true) := by
  intro l
  induction l with
  | nil => intro _; simp [insertLe]
  | cons y t ih =>
    intro hp
    rw [insertLe]
    obtain ⟨hy, ht⟩ := List.pairwise_cons.mp hp
    by_cases h : le x y
    · rw [if_pos h]
      refine List.pairwise_cons.mpr ⟨?_, hp⟩
      intro z hz
      rcases List.mem_cons.mp hz with hz | hz
      · subst hz; exact h
      · exact htr x y z h (hy z hz)
    · rw [if_neg h]
      have hyx : le y x := by
        have := htot x y
        simp [h] at this
        exact this
      refine List.pairwise_cons.mpr ⟨?_, ih ht⟩
      intro z hz
      have hz2 := (insertLe_perm le x t).mem_iff.mp hz
      rcases List.mem_cons.mp hz2 with hz2 | hz2
      · subst hz2; exact hyx
      · exact hy z hz2

theorem insSort_pairwise (le : α → α → Bool)
    (htot : ∀ a b, le a b || le b a) (htr : ∀ a b c, le a b → le b c → le a c) :
    ∀ l : List α, (insSort le l).Pairwise (le · · = true) := by
  intro l
  induction l with
  | nil => simp [insSort]
  | cons x t ih => exact insertLe_pairwise le htot htr x (insSort le t) ih

theorem insertLe_filter_key {K : Type} [DecidableEq K] (key : α → K) (kle : K → K → Bool)
    (le : α → α → Bool) (hle : ∀ a b, le a b = kle (key a) (key b))
    (hrefl : ∀ v, kle v v = true) (x : α) (v : K) :
    ∀ l : List α, (insertLe le x l).filter (fun a => key a = v)
      = (x :: l).filter (fun a => key a = v) := by
  intro l
  induction l with
  | nil => simp [insertLe]
  | cons y t ih =>
    rw [insertLe]
    by_cases h : le x y
    · rw [if_pos h]
    · rw [if_neg h]
      have hkxy : key x ≠ key y := by
        intro he
        rw [hle, he, hrefl] at h
        exact h rfl
      by_cases hx : key x = v
      · have hy : ¬ key y = v := by rw [← hx]; exact fun he => hkxy he.symm
        simp [List.filter_cons, hx, hy, ih]
      · by_cases hy : key y = v
        · simp [List.filter_cons, hx, hy, ih]
        · simp [List.filter_cons, hx, hy, ih]

theorem insSort_filter_key {K : Type} [DecidableEq K] (key : α → K) (kle : K → K → Bool)
    (le : α → α → Bool) (hle : ∀ a b, le a b = kle (key a) (key b))
    (hrefl : ∀ v, kle v v = true) (v : K) :
    ∀ l : List α, (insSort le l).filter (fun a => key a = v)
      = l.filter (fun a => key a = v) := by
  intro l
  induction l with
  | nil => simp [insSort]
  | cons x t ih =>
    rw [insSort, insertLe_filter_key key kle le hle hrefl]
    simp only [List.filter_cons]
    rw [ih]

theorem insertLe_congr (le1 le2 : α → α → Bool) (x : α) :
    ∀ l : List α, (∀ b ∈ l, le1 x b = le2 x b) → insertLe le1 x l = insertLe le2 x l := by
  intro l
  induction l with
  | nil => intro _; simp [insertLe]
  | cons y t ih =>
    intro h
    rw [insertLe, insertLe, h y (by simp)]
    by_cases h2 : le2 x y
    · rw [if_pos h2, if_pos h2]
    · rw [if_neg h2, if_neg h2, ih (fun b hb => h b (by simp [hb]))]

theorem insSort_congr (le1 le2 : α → α → Bool) :
    ∀ l : List α, (∀ a ∈ l, ∀ b ∈ l, le1 a b = le2 a b) →
      insSort le1 l = insSort le2 l := by
  intro l
  induction l with
  | nil => intro _; rfl
  | cons x t ih =>
    intro h
    rw [insSort, insSort, ih (fun a ha b hb => h a (by simp [ha]) b (by simp [hb]))]
    refine insertLe_congr le1 le2 x (insSort le2 t) ?_
    intro b hb
    have hbm : b ∈ t := ((insSort_perm le2 t).mem_iff).mp hb
    exact h x (by simp) b (by simp [hbm])

/-! ## Panel harvester, API path (`getEmbeddedPanelsFromAPI`) -/

/-- `a.gridData || { y: 0, x: 0 }`. -/
def gridDataOf (p : Json) : Json :=
  jsOr (jsGet p "gridData".toList) (.obj [("y".toList, .num 0), ("x".toList, .num 0)])

/-- The `y` coordinate used by the grid sort.  Non-numeric coordinates
would make the JavaScript comparator return `NaN`, leaving the order
implementation-defined; the model reads them as `0`. -/
def gridY (p : Json) : Int :=
  match jsGet (gridDataOf p) "y".toList with
  | .num n => n
  | _ => 0

/-- The `x` coordinate used by the grid sort (see `gridY`). -/
def gridX (p : Json) : Int :=
  match jsGet (gridDataOf p) "x".toList with
  | .num n => n
  | _ => 0

/-- `comparator(a, b) <= 0` for the grid sort of `getEmbeddedPanelsFromAPI`:
`if (aGrid.y !== bGrid.y) return aGrid.y - bGrid.y; return aGrid.x - bGrid.x`. -/
def gridLe (a b : Json) : Bool :=
  gridY a < gridY b || (gridY a = gridY b && gridX a ≤ gridX b)

/-- The `panels.sort(...)` step: stable sort by the grid comparator. -/
def sortPanelsByGrid (panels : List Json) : List Json :=
  insSort gridLe panels

/-- One harvested embedded-panel resource (the object pushed by the loop of
`getEmbeddedPanelsFromAPI`). -/
structure Resource where
  rtype : Json
  subType : Json
  id : Json
  title : Json
  panelIndex : Json
  dashboardId : Chars
  isEmbedded : Bool
deriving DecidableEq

/-- The loop body of `getEmbeddedPanelsFromAPI` for one panel; `.error`
when `extractPanelSubType` raises. -/
def mkPanelResource (dashboardId : Chars) (p : Json) : Except Unit Resource :=
  match extractPanelSubType p with
  | .error e => .error e
  | .ok st =>
    .ok { rtype := jsGet p "type".toList, subType := st, id := .null,
          title := extractPanelTitle p, panelIndex := jsGet p "panelIndex".toList,
          dashboardId := dashboardId, isEmbedded := true }

/-- The harvesting loop: first raised extraction aborts the rest. -/
def buildResources (dashboardId : Chars) : List Json → Except Unit (List Resource)
  | [] => .ok []
  | p :: rest =>
    match mkPanelResource dashboardId p with
    | .error e => .error e
    | .ok r =>
      match buildResources dashboardId rest with
      | .error e => .error e
      | .ok rs => .ok (r :: rs)

/-- Failure modes of the API-path harvest, all caught by the aggregator. -/
inductive HarvestErr where
  | fetchErr (status : Nat)
  | parseErr
  | typeErr
deriving DecidableEq

/-- `getEmbeddedPanelsFromAPI(dashboardId)` with the network modelled by
`fetchDoc` (the result of `fetchDashboardData`: the parsed response body,
or the non-success status that makes it throw).  A missing/falsy
`panelsJSON` returns `[]` (no error); a malformed one raises through
`JSON.parse` (`parseErr`; a truthy non-string value is likewise modelled as
a parse failure); a non-array parse makes `panels.sort` raise
(`typeErr`), as does a subtype extraction `TypeError`. -/
def getEmbeddedPanelsFromAPI (dashboardId : Chars) (fetchDoc : Except Nat Json) :
    Except HarvestErr (List Resource) :=
  match fetchDoc with
  | .error status => .error (.fetchErr status)
  | .ok dashboard =>
    let panelsJSON := jsGet (jsGet dashboard "attributes".toList) "panelsJSON".toList
    if ¬ truthy panelsJSON then .ok []
    else
      match panelsJSON with
      | .str s =>
        (match jsonParse s with
         | none => .error .parseErr
         | some parsed =>
           (match parsed with
            | .arr panels =>
              (match buildResources dashboardId (sortPanelsByGrid panels) with
               | .error _ => .error .typeErr
               | .ok rs => .ok rs)
            | _ => .error .typeErr))
      | _ => .error .parseErr

/-! ## Panel harvester, DOM path (`detectEmbeddedPanels`) -/

/-- The identity a DOM container yields (`extractPanelInfo` output); the
extraction cascade itself reads the live DOM and is an oracle here.
Containers yielding neither title nor id are already dropped. -/
structure DomInfo where
  dtype : Chars
  id : Option Chars
  title : Chars
deriving DecidableEq

/-- A detected panel container with its bounding-box offsets. -/
structure DomPanel where
  info : DomInfo
  top : Int
  left : Int
deriving DecidableEq

/-- `comparator(a, b) <= 0` for the DOM sort: offsets within the 50-unit
row threshold compare by left, otherwise by top.  This comparator is not
transitive, so for inconsistent inputs ECMAScript leaves the sort order
implementation-defined; the stable insertion sort here is one model of it
(and exact whenever the comparator is consistent). -/
def domPanelLe (a b : DomPanel) : Bool :=
  if (a.top - b.top).natAbs > 50 then a.top ≤ b.top else a.left ≤ b.left

/-- `detectEmbeddedPanels()`: sort the harvested containers by position and
strip the position data from the returned descriptors. -/
def detectEmbeddedPanels (domPanels : List DomPanel) : List DomInfo :=
  (insSort domPanelLe domPanels).map (fun p => p.info)

/-! ## Resource aggregator (`getAllResources`) -/

/-- An entry of the aggregated resource list: the primary resource, an
API-harvested panel, or a DOM-harvested panel. -/
inductive ScanEntry where
  | primary (d : Detected)
  | apiPanel (r : Resource)
  | domPanel (d : DomInfo)
deriving DecidableEq

/-- `haystack.includes(needle)` on strings. -/
def containsSeq (needle : Chars) : Chars → Bool
  | [] => needle.isPrefixOf []
  | l@(_ :: rest) => needle.isPrefixOf l || containsSeq needle rest

/-- `getAllResources()`: primary resource first; on dashboard pages with a
primary id, append the API-path panels, falling back to the DOM path when
the API path raises. -/
def getAllResources (url : Chars) (domTitle : Option Chars) (fetchDoc : Except Nat Json)
    (domPanels : List DomPanel) : List ScanEntry :=
  match detectSavedObject url domTitle with
  | none => []
  | some m =>
    if containsSeq "/app/dashboards".toList url ∧ m.id ≠ [] then
      match getEmbeddedPanelsFromAPI m.id fetchDoc with
      | .ok panels => .primary m :: panels.map .apiPanel
      | .error _ => .primary m :: (detectEmbeddedPanels domPanels).map .domPanel
    else [.primary m]

/-- The `getAllResources` message handler's response: always a `resources`
array and nothing else. -/
structure ScanResponse where
  resources : List ScanEntry
deriving DecidableEq

/-- The `getAllResources` message handler: any error thrown while gathering
is caught and answered with an empty list. -/
def handleGetAllResources (outcome : Except Chars (List ScanEntry)) : ScanResponse :=
  match outcome with
  | .ok rs => ⟨rs⟩
  | .error _ => ⟨[]⟩

/-! ## Pretty serialization (`JSON.stringify(data, null, 2)`) -/

mutual

/-- `JSON.stringify(v, null, 2)` at a given accumulated indent: empty
arrays and objects print compactly, non-empty ones with newlines and
two-space indentation steps, per the ECMA serialization algorithm. -/
def prettyJson (ind : Chars) : Json → Chars
  | .arr [] => '[' :: [']']
  | .obj [] => '\x7b' :: ['\x7d']
  | .arr es@(_ :: _) =>
    '[' :: '\n' :: (prettyElems (ind ++ [' ', ' ']) es ++ '\n' :: (ind ++ [']']))
  | .obj fs@(_ :: _) =>
    '\x7b' :: '\n' :: (prettyFields (ind ++ [' ', ' ']) fs ++ '\n' :: (ind ++ ['\x7d']))
  | v => jsonStringify v

/-- Indented, `,\n`-separated array elements. -/
def prettyElems (ind : Chars) : List Json → Chars
  | [] => []
  | [j] => ind ++ prettyJson ind j
  | j :: rest@(_ :: _) => ind ++ prettyJson ind j ++ ',' :: '\n' :: prettyElems ind rest

/-- Indented, `,\n`-separated object fields (`"key": value`). -/
def prettyFields (ind : Chars) : List (Chars × Json) → Chars
  | [] => []
  | [(k, v)] => ind ++ quoteChars k ++ ':' :: ' ' :: prettyJson ind v
  | (k, v) :: rest@(_ :: _) =>
    ind ++ quoteChars k ++ ':' :: ' ' :: prettyJson ind v ++ ',' :: '\n' :: prettyFields ind rest

end

/-- `JSON.stringify(data, null, 2)` as the alternative-API export re-serializes
its response. -/
def jsonStringifyIndent2 (v : Json) : Chars := prettyJson [] v

/-! ## Export router (the `exportSavedObject` message handler) -/

mutual

/-- JavaScript `String(v)` coercion, as template interpolation applies it
(arrays join their elements with commas, objects print as
`[object Object]`). -/
def jsToString : Json → Chars
  | .null => "null".toList
  | .bool true => "true".toList
  | .bool false => "false".toList
  | .num n => intToChars n
  | .str s => s
  | .arr es => joinArrElems es
  | .obj _ => "[object Object]".toList

/-- `Array.prototype.join(',')` with `null`/`undefined` elements printing
as the empty string. -/
def joinArrElems : List Json → Chars
  | [] => []
  | [j] => arrElemToString j
  | j :: rest@(_ :: _) => arrElemToString j ++ ',' :: joinArrElems rest

/-- One array element under `join`. -/
def arrElemToString : Json → Chars
  | .null => []
  | j => jsToString j

end

/-- A network request issued by the handler.  The bulk-export call records
the `{type, id}` pair placed in the request body (sent with
`includeReferencesDeep: true`, an anti-forgery header and session
credentials). -/
inductive NetCall where
  | dashboardFetch (url : Chars)
  | altApi (url : Chars)
  | bulkExport (url : Chars) (rtype : Json) (id : Json)
deriving DecidableEq

/-- A non-success HTTP response (the `!response.ok` case). -/
structure FetchErr where
  status : Nat
  statusText : Chars
  body : Chars
deriving DecidableEq

/-- Network oracle: what each endpoint would answer if called. -/
structure NetOracle where
  dashboardDoc : Except FetchErr Json
  altResponse : Except FetchErr Json
  bulkResponse : Except FetchErr Chars

/-- The fields destructured from an `exportSavedObject` message. -/
structure ExportRequest where
  rtype : Json
  id : Json
  title : Json
  panelIndex : Json
  dashboardId : Json
  isEmbedded : Json
  useAlternativeApi : Json
deriving DecidableEq

/-- `ALTERNATIVE_API_TYPES[type]` with a message-supplied `type` value:
property access coerces the key to a string, and no non-string value
coerces to `"slo"` or `"alert"`. -/
def altLookup (t : Json) : Option AltApi :=
  match t with
  | .str s => ALTERNATIVE_API_TYPES s
  | _ => none

/-- `` `Export failed: ${status} ${statusText} - ${errorText}` ``. -/
def exportFailedMsg (e : FetchErr) : Chars :=
  "Export failed: ".toList ++ natToChars e.status ++ ' ' :: e.statusText
    ++ " - ".toList ++ e.body

/-- The outcome the handler reports: a successful export hands the content,
title, type and file extension to the `downloadFile` collaborator (whose
response is forwarded); any thrown error is answered as
`{success: false, error: <message>}`. -/
inductive ExportOutcome where
  | download (content : Chars) (title : Json) (rtype : Json) (fileExtension : Chars)
  | failure (error : Chars)
deriving DecidableEq

/-- `exportEmbeddedPanel(dashboardId, panelIndex)`: fetch the dashboard,
parse `panelsJSON`, locate the panel by strict `panelIndex` equality and
synthesize its export.  `.error` carries the thrown message (the
`JSON.parse` and `panels.find` TypeError texts are engine-specific and
modelled by fixed strings). -/
def exportEmbeddedPanel (baseUrl : Chars) (dashboardId : Json) (panelIndex : Json)
    (oracle : NetOracle) (now freshId : Chars) : Except Chars Chars × List NetCall :=
  let calls := [NetCall.dashboardFetch
    (baseUrl ++ "/api/saved_objects/dashboard/".toList ++ jsToString dashboardId)]
  match oracle.dashboardDoc with
  | .error e => (.error ("Failed to fetch dashboard: ".toList ++ natToChars e.status), calls)
  | .ok dashboard =>
    let panelsJSON := jsGet (jsGet dashboard "attributes".toList) "panelsJSON".toList
    if ¬ truthy panelsJSON then (.error "Dashboard has no panels".toList, calls)
    else
      match panelsJSON with
      | .str s =>
        (match jsonParse s with
         | none => (.error "SyntaxError: JSON.parse".toList, calls)
         | some parsed =>
           (match parsed with
            | .arr panels =>
              (match panels.find? (fun p => jsStrictEq (jsGet p "panelIndex".toList)
                  panelIndex) with
               | none => (.error ("Panel ".toList ++ jsToString panelIndex
                   ++ " not found in dashboard".toList), calls)
               | some panel =>
                 let dashboardTitle := jsOr (jsGet (jsGet dashboard "attributes".toList)
                   "title".toList) (.str "Dashboard".toList)
                 (.ok (constructPanelExport panel dashboardTitle now freshId), calls))
            | _ => (.error "TypeError: panels.find is not a function".toList, calls)))
      | _ => (.error "SyntaxError: JSON.parse".toList, calls)

/-- The `exportSavedObject` message handler: branch order exactly as in the
script — embedded panel, alternative API, bulk export by id, invalid
request.  Returns the reported outcome together with the network calls
made. -/
def handleExportSavedObject (req : ExportRequest) (baseUrl : Chars) (oracle : NetOracle)
    (now freshId : Chars) : ExportOutcome × List NetCall :=
  if truthy req.isEmbedded ∧ truthy req.dashboardId ∧ truthy req.panelIndex then
    match exportEmbeddedPanel baseUrl req.dashboardId req.panelIndex oracle now freshId with
    | (.ok content, calls) => (.download content req.title req.rtype "ndjson".toList, calls)
    | (.error msg, calls) => (.failure msg, calls)
  else
    match (if truthy req.useAlternativeApi then altLookup req.rtype else none) with
    | some cfg =>
      let url := baseUrl ++ cfg.apiPath (jsToString req.id)
      (match oracle.altResponse with
       | .error e => (.failure (exportFailedMsg e), [.altApi url])
       | .ok data =>
         (.download (jsonStringifyIndent2 data) req.title req.rtype
           (if cfg.fileExtension ≠ [] then cfg.fileExtension else "json".toList),
          [.altApi url]))
    | none =>
      if truthy req.id then
        let url := baseUrl ++ "/api/saved_objects/_export".toList
        (match oracle.bulkResponse with
         | .error e => (.failure (exportFailedMsg e), [.bulkExport url req.rtype req.id])
         | .ok text =>
           (.download text req.title req.rtype "ndjson".toList,
            [.bulkExport url req.rtype req.id]))
      else (.failure "No valid export target specified".toList, [])

/-! ## Claim theorems -/

/-- C9: every `getAllResources` handler response carries a `resources`
array — the thrown-error case is answered with an empty array, making a
failed scan indistinguishable, at this interface, from a page where
classification found nothing (on which `getAllResources` returns `[]`). -/
theorem C9_scan_handler_always_resources (outcome : Except Chars (List ScanEntry)) :
    (handleGetAllResources outcome).resources
      = (match outcome with | .ok rs => rs | .error _ => []) ∧
    (∀ e, handleGetAllResources (.error e) = handleGetAllResources (.ok [])) ∧
    (∀ e url domTitle fetchDoc domPanels, detectSavedObject url domTitle = none →
      handleGetAllResources (.error e)
        = handleGetAllResources (.ok (getAllResources url domTitle fetchDoc domPanels))) := by
  refine ⟨?_, ?_, ?_⟩
  · cases outcome <;> rfl
  · intro e; rfl
  · intro e url domTitle fetchDoc domPanels hnone
    rw [getAllResources, hnone]
    rfl

theorem exportEmbeddedPanel_calls (baseUrl : Chars) (dashboardId panelIndex : Json)
    (oracle : NetOracle) (now freshId : Chars) :
    (exportEmbeddedPanel baseUrl dashboardId panelIndex oracle now freshId).2
      = [NetCall.dashboardFetch
          (baseUrl ++ "/api/saved_objects/dashboard/".toList ++ jsToString dashboardId)] := by
  simp only [exportEmbeddedPanel]
  repeat' split
  all_goals rfl

/-- C10 (amended foundation): the embedded-panel branch of the export
handler runs exactly when `isEmbedded`, `dashboardId` and `panelIndex` are
all truthy (witnessed by the dashboard fetch it performs); otherwise the
request routes through the alternative-API / bulk / invalid branches as if
it were not embedded; and the synthesized record's `id` is the panel's
`panelIndex` whenever that value is truthy. -/
theorem C10_embedded_branch_routing (req : ExportRequest) (baseUrl : Chars)
    (oracle : NetOracle) (now freshId : Chars) :
    ((∃ u, NetCall.dashboardFetch u
        ∈ (handleExportSavedObject req baseUrl oracle now freshId).2)
      ↔ (truthy req.isEmbedded ∧ truthy req.dashboardId ∧ truthy req.panelIndex)) ∧
    (¬ (truthy req.isEmbedded ∧ truthy req.dashboardId ∧ truthy req.panelIndex) →
      handleExportSavedObject req baseUrl oracle now freshId
        = handleExportSavedObject
            { req with isEmbedded := .null, dashboardId := .null, panelIndex := .null }
            baseUrl oracle now freshId) ∧
    (∀ panel : Json, truthy (jsGet panel "panelIndex".toList) →
      jsGet (constructPanelSavedObject panel now freshId) "id".toList
        = jsGet panel "panelIndex".toList) := by
  refine ⟨?_, ?_, ?_⟩
  · by_cases hcond : truthy req.isEmbedded ∧ truthy req.dashboardId ∧ truthy req.panelIndex
    · refine iff_of_true ?_ hcond
      rw [handleExportSavedObject, if_pos hcond]
      rcases hE : exportEmbeddedPanel baseUrl req.dashboardId req.panelIndex oracle now freshId
        with ⟨res, calls⟩
      have hc := exportEmbeddedPanel_calls baseUrl req.dashboardId req.panelIndex oracle
        now freshId
      rw [hE] at hc
      cases res with
      | ok content =>
        show ∃ u, NetCall.dashboardFetch u ∈ calls
        have hc2 : calls = [NetCall.dashboardFetch
            (baseUrl ++ "/api/saved_objects/dashboard/".toList ++ jsToString req.dashboardId)] :=
          hc
        rw [hc2]
        exact ⟨_, List.mem_singleton.mpr rfl⟩
      | error msg =>
        show ∃ u, NetCall.dashboardFetch u ∈ calls
        have hc2 : calls = [NetCall.dashboardFetch
            (baseUrl ++ "/api/saved_objects/dashboard/".toList ++ jsToString req.dashboardId)] :=
          hc
        rw [hc2]
        exact ⟨_, List.mem_singleton.mpr rfl⟩
    · refine iff_of_false ?_ hcond
      rw [handleExportSavedObject, if_neg hcond]
      rintro ⟨u, hu⟩
      rcases hA : (if truthy req.useAlternativeApi then altLookup req.rtype else none) with
        _ | cfg
      · rw [hA] at hu
        by_cases hid : truthy req.id
        · rw [if_pos hid] at hu
          cases hB : oracle.bulkResponse <;> rw [hB] at hu <;> simp at hu
        · rw [if_neg hid] at hu
          simp at hu
      · rw [hA] at hu
        cases hB : oracle.altResponse <;> rw [hB] at hu <;> simp at hu
  · intro hcond
    have hcond2 : ¬ (truthy (Json.null) ∧ truthy (Json.null) ∧ truthy (Json.null)) := by
      simp [truthy]
    rw [show handleExportSavedObject
          { req with isEmbedded := .null, dashboardId := .null, panelIndex := .null }
          baseUrl oracle now freshId
        = (match (if truthy req.useAlternativeApi then altLookup req.rtype else none) with
           | some cfg =>
             let url := baseUrl ++ cfg.apiPath (jsToString req.id)
             (match oracle.altResponse with
              | .error e => (.failure (exportFailedMsg e), [.altApi url])
              | .ok data =>
                (.download (jsonStringifyIndent2 data) req.title req.rtype
                  (if cfg.fileExtension ≠ [] then cfg.fileExtension else "json".toList),
                 [.altApi url]))
           | none =>
             if truthy req.id then
               let url := baseUrl ++ "/api/saved_objects/_export".toList
               (match oracle.bulkResponse with
                | .error e => (.failure (exportFailedMsg e), [.bulkExport url req.rtype req.id])
                | .ok text =>
                  (.download text req.title req.rtype "ndjson".toList,
                   [.bulkExport url req.rtype req.id]))
             else (.failure "No valid export target specified".toList, []))
      from by rw [handleExportSavedObject, if_neg hcond2]]
    rw [handleExportSavedObject, if_neg hcond]
  · intro panel hpi
    have hid : jsOr (jsGet panel "panelIndex".toList) (.str freshId)
        = jsGet panel "panelIndex".toList := by rw [jsOr, if_pos hpi]
    unfold constructPanelSavedObject
    by_cases h1 : jsStrictEq (jsGet panel "type".toList) (.str "lens".toList)
    · rw [if_pos h1]; simp [jsGet]; exact hid
    · rw [if_neg h1]
      by_cases h2 : jsStrictEq (jsGet panel "type".toList) (.str "visualization".toList)
      · rw [if_pos h2]; simp [jsGet]; exact hid
      · rw [if_neg h2]
        by_cases h3 : jsStrictEq (jsGet panel "type".toList) (.str "map".toList)
        · rw [if_pos h3]; simp [jsGet]; exact hid
        · rw [if_neg h3]
          by_cases h4 : jsStrictEq (jsGet panel "type".toList) (.str "search".toList)
          · rw [if_pos h4]; simp [jsGet]; exact hid
          · rw [if_neg h4]; simp [jsGet]; exact hid

theorem C9_scan_handler_always_resources_witness :
    (handleGetAllResources (.error "boom".toList)).resources = [] ∧
    handleGetAllResources (.error "boom".toList)
      = handleGetAllResources
          (.ok (getAllResources "https://example.com/app/home".toList none (.error 500) [])) := by
  have h := C9_scan_handler_always_resources (.error "boom".toList)
  exact ⟨h.1, h.2.2 "boom".toList "https://example.com/app/home".toList none (.error 500) []
    (by decide)⟩

theorem C10_embedded_branch_routing_witness :
    truthy (jsGet (Json.obj [("panelIndex".toList, Json.str ['p'])]) "panelIndex".toList)
        = true ∧
    jsGet (constructPanelSavedObject (Json.obj [("panelIndex".toList, Json.str ['p'])])
        "now".toList "fresh".toList) "id".toList = Json.str ['p'] := by
  refine ⟨by decide, ?_⟩
  have h := (C10_embedded_branch_routing ⟨.null, .null, .null, .null, .null, .null, .null⟩
      [] ⟨.error ⟨500, [], []⟩, .error ⟨500, [], []⟩, .error ⟨500, [], []⟩⟩ "now".toList
      "fresh".toList).2.2 (Json.obj [("panelIndex".toList, Json.str ['p'])]) (by decide)
  rw [h]
  decide

theorem detectGo_fields : ∀ (ps : List UrlPattern) (url : Chars) (dt : Option Chars)
    (r : Detected), detectGo url dt ps = some r →
    ∃ p ∈ ps, scanMatch p url = some r.id ∧ r.dtype = p.ptype ∧ r.title = dt ∧ r.url = url ∧
      r.useAlternativeApi = (ALTERNATIVE_API_TYPES p.ptype).isSome ∧
      r.notExportable = (NON_EXPORTABLE_TYPES p.ptype).isSome ∧
      r.notExportableReason = NON_EXPORTABLE_TYPES p.ptype := by
  intro ps
  induction ps with
  | nil => intro url dt r h; exact absurd h (by simp [detectGo])
  | cons p rest ih =>
    intro url dt r h
    rw [detectGo] at h
    cases hs : scanMatch p url with
    | some id =>
      rw [hs] at h
      injection h with h
      exact ⟨p, by simp, by rw [← h, hs], by rw [← h], by rw [← h], by rw [← h],
        by rw [← h], by rw [← h], by rw [← h]⟩
    | none =>
      rw [hs] at h
      obtain ⟨q, hq, hrest⟩ := ih url dt r h
      exact ⟨q, by simp [hq], hrest⟩

/-- C1 counterexample: a request with the alternate-API flag set but a type
absent from the alternate table (here `dashboard`) and an id present is
routed to the bulk export endpoint — the handler does call the bulk
endpoint although `useAlternativeApi` is set. -/
theorem C1_counterexample :
    truthy (ExportRequest.mk (.str "dashboard".toList) (.str "x".toList) .null .null .null
        .null (.bool true)).useAlternativeApi = true ∧
    handleExportSavedObject
        (ExportRequest.mk (.str "dashboard".toList) (.str "x".toList) .null .null .null
          .null (.bool true))
        "https://kb".toList
        ⟨.error ⟨500, [], []⟩, .error ⟨500, [], []⟩, .ok "BULK".toList⟩
        "now".toList "fresh".toList
      = (.download "BULK".toList .null (.str "dashboard".toList) "ndjson".toList,
         [.bulkExport ("https://kb".toList ++ "/api/saved_objects/_export".toList)
           (.str "dashboard".toList) (.str "x".toList)]) := by
  constructor
  · decide
  · decide

/-- C1 (amended): when the alternate-API flag is set *and* the type is in
the alternate table, the bulk endpoint is never called; and an alternate
endpoint is only ever called when the flag is set and the type is in the
table. -/
theorem C1_alternate_routing (req : ExportRequest) (baseUrl : Chars) (oracle : NetOracle)
    (now freshId : Chars) :
    (truthy req.useAlternativeApi ∧ (altLookup req.rtype).isSome →
      ∀ u t i, NetCall.bulkExport u t i
        ∉ (handleExportSavedObject req baseUrl oracle now freshId).2) ∧
    (∀ u, NetCall.altApi u ∈ (handleExportSavedObject req baseUrl oracle now freshId).2 →
      truthy req.useAlternativeApi ∧ (altLookup req.rtype).isSome) := by
  by_cases hcond : truthy req.isEmbedded ∧ truthy req.dashboardId ∧ truthy req.panelIndex
  · have hc := exportEmbeddedPanel_calls baseUrl req.dashboardId req.panelIndex oracle
      now freshId
    rcases hE : exportEmbeddedPanel baseUrl req.dashboardId req.panelIndex oracle now freshId
      with ⟨res, calls⟩
    rw [hE] at hc
    have hc2 : calls = [NetCall.dashboardFetch
        (baseUrl ++ "/api/saved_objects/dashboard/".toList ++ jsToString req.dashboardId)] :=
      hc
    have hcalls : (handleExportSavedObject req baseUrl oracle now freshId).2 = calls := by
      rw [handleExportSavedObject, if_pos hcond, hE]
      cases res <;> rfl
    constructor
    · intro _ u t i hmem
      rw [hcalls, hc2] at hmem
      simp at hmem
    · intro u hmem
      rw [hcalls, hc2] at hmem
      simp at hmem
  · rcases hA : (if truthy req.useAlternativeApi then altLookup req.rtype else none) with
      _ | cfg
    · have hno : ¬ (truthy req.useAlternativeApi ∧ (altLookup req.rtype).isSome) := by
        rintro ⟨hflag, hsome⟩
        rw [if_pos hflag] at hA
        rw [hA] at hsome
        simp at hsome
      have hcalls : ∀ (x : NetCall),
          x ∈ (handleExportSavedObject req baseUrl oracle now freshId).2 →
          (∃ u t i, x = NetCall.bulkExport u t i) ∨ x = NetCall.bulkExport
            (baseUrl ++ "/api/saved_objects/_export".toList) req.rtype req.id ∨ False → True :=
        fun _ _ _ => trivial
      constructor
      · intro h; exact absurd h hno
      · intro u hmem
        rw [handleExportSavedObject, if_neg hcond, hA] at hmem
        by_cases hid : truthy req.id
        · rw [if_pos hid] at hmem
          cases hB : oracle.bulkResponse <;> rw [hB] at hmem <;> simp at hmem
        · rw [if_neg hid] at hmem
          simp at hmem
    · have hflag : truthy req.useAlternativeApi := by
        by_contra hf
        rw [if_neg hf] at hA
        exact Option.noConfusion hA
      have hsome : (altLookup req.rtype).isSome := by
        rw [if_pos hflag] at hA
        rw [hA]
        rfl
      have hcalls : (handleExportSavedObject req baseUrl oracle now freshId).2
          = [NetCall.altApi (baseUrl ++ cfg.apiPath (jsToString req.id))] := by
        rw [handleExportSavedObject, if_neg hcond, hA]
        cases hB : oracle.altResponse <;> rfl
      constructor
      · intro _ u t i hmem
        rw [hcalls] at hmem
        simp at hmem
      · intro u hmem
        exact ⟨hflag, hsome⟩

theorem C1_alternate_routing_witness :
    truthy (ExportRequest.mk (.str "slo".toList) (.str "i".toList) .null .null .null
        .null (.bool true)).useAlternativeApi = true ∧
    (altLookup (ExportRequest.mk (.str "slo".toList) (.str "i".toList) .null .null .null
        .null (.bool true)).rtype).isSome = true ∧
    NetCall.bulkExport ("https://kb".toList ++ "/api/saved_objects/_export".toList)
        (.str "slo".toList) (.str "i".toList)
      ∉ (handleExportSavedObject
          (ExportRequest.mk (.str "slo".toList) (.str "i".toList) .null .null .null
            .null (.bool true))
          "https://kb".toList
          ⟨.error ⟨500, [], []⟩, .error ⟨500, [], []⟩, .ok "BULK".toList⟩
          "now".toList "fresh".toList).2 := by
  refine ⟨by decide, by decide, ?_⟩
  exact (C1_alternate_routing
    (ExportRequest.mk (.str "slo".toList) (.str "i".toList) .null .null .null
      .null (.bool true))
    "https://kb".toList
    ⟨.error ⟨500, [], []⟩, .error ⟨500, [], []⟩, .ok "BULK".toList⟩
    "now".toList "fresh".toList).1 ⟨by decide, by decide⟩ _ _ _

/-- C2 counterexample: an export request for the non-exportable type
`cases` *with an id present* is not rejected with the configured reason and
zero network calls — the handler issues the bulk-export request and
forwards its result. -/
theorem C2_counterexample :
    NON_EXPORTABLE_TYPES "cases".toList
      = some "Cases are not exportable via any known API".toList ∧
    handleExportSavedObject
        (ExportRequest.mk (.str "cases".toList) (.str "abc".toList) .null .null .null
          .null .null)
        "https://kb".toList
        ⟨.error ⟨500, [], []⟩, .error ⟨500, [], []⟩, .ok "BULK".toList⟩
        "now".toList "fresh".toList
      = (.download "BULK".toList .null (.str "cases".toList) "ndjson".toList,
         [.bulkExport ("https://kb".toList ++ "/api/saved_objects/_export".toList)
           (.str "cases".toList) (.str "abc".toList)]) ∧
    (handleExportSavedObject
        (ExportRequest.mk (.str "cases".toList) (.str "abc".toList) .null .null .null
          .null .null)
        "https://kb".toList
        ⟨.error ⟨500, [], []⟩, .error ⟨500, [], []⟩, .ok "BULK".toList⟩
        "now".toList "fresh".toList).1
      ≠ .failure "Cases are not exportable via any known API".toList := by
  refine ⟨by decide, by decide, by decide⟩

/-- C2 (amended): a non-exportable-type request without a truthy id (and
not routed through the embedded branch) fails with the generic
`No valid export target specified` error and zero network calls; the
configured reason is exposed on the scan side: `detectSavedObject` flags
such types `notExportable` and carries the configured reason. -/
theorem C2_non_exportable (req : ExportRequest) (baseUrl : Chars) (oracle : NetOracle)
    (now freshId : Chars) (t reason : Chars)
    (ht : req.rtype = .str t) (hne : NON_EXPORTABLE_TYPES t = some reason)
    (hid : ¬ truthy req.id)
    (hemb : ¬ (truthy req.isEmbedded ∧ truthy req.dashboardId ∧ truthy req.panelIndex)) :
    handleExportSavedObject req baseUrl oracle now freshId
      = (.failure "No valid export target specified".toList, []) ∧
    (∀ url dt r, detectSavedObject url dt = some r →
      r.notExportable = (NON_EXPORTABLE_TYPES r.dtype).isSome ∧
      r.notExportableReason = NON_EXPORTABLE_TYPES r.dtype) := by
  constructor
  · have hc : t = "cases".toList := by
      by_cases hc : t = "cases".toList
      · exact hc
      · rw [NON_EXPORTABLE_TYPES, if_neg hc] at hne
        exact Option.noConfusion hne
    have halt : altLookup req.rtype = none := by
      rw [ht, hc]
      rfl
    rw [handleExportSavedObject, if_neg hemb,
      show (if truthy req.useAlternativeApi then altLookup req.rtype else none) = none from by
        cases h : truthy req.useAlternativeApi <;> simp [h, halt],
      if_neg hid]
  · intro url dt r h
    obtain ⟨p, _, _, hdtype, _, _, _, hnex, hreason⟩ :=
      detectGo_fields KIBANA_PATTERNS url dt r h
    rw [hdtype, hnex, hreason]
    exact ⟨rfl, rfl⟩

theorem C2_non_exportable_witness :
    (ExportRequest.mk (.str "cases".toList) .null .null .null .null .null .null).rtype
        = Json.str "cases".toList ∧
    NON_EXPORTABLE_TYPES "cases".toList
        = some "Cases are not exportable via any known API".toList ∧
    handleExportSavedObject
        (ExportRequest.mk (.str "cases".toList) .null .null .null .null .null .null)
        "https://kb".toList
        ⟨.error ⟨500, [], []⟩, .error ⟨500, [], []⟩, .ok "BULK".toList⟩
        "now".toList "fresh".toList
      = (.failure "No valid export target specified".toList, []) := by
  refine ⟨rfl, by decide, ?_⟩
  exact (C2_non_exportable
    (ExportRequest.mk (.str "cases".toList) .null .null .null .null .null .null)
    "https://kb".toList
    ⟨.error ⟨500, [], []⟩, .error ⟨500, [], []⟩, .ok "BULK".toList⟩
    "now".toList "fresh".toList "cases".toList
    "Cases are not exportable via any known API".toList rfl (by decide) (by decide)
    (by decide)).1

theorem gridLe_total (a b : Json) : gridLe a b || gridLe b a := by
  simp only [gridLe, Bool.or_eq_true, Bool.and_eq_true, decide_eq_true_eq]
  omega

theorem gridLe_trans (a b c : Json) : gridLe a b → gridLe b c → gridLe a c := by
  simp only [gridLe, Bool.or_eq_true, Bool.and_eq_true, decide_eq_true_eq]
  omega

theorem gridLe_elim {a b : Json} (h : gridLe a b = true) :
    gridY a < gridY b ∨ (gridY a = gridY b ∧ gridX a ≤ gridX b) := by
  simpa only [gridLe, Bool.or_eq_true, Bool.and_eq_true, decide_eq_true_eq] using h

theorem getEmbeddedPanelsFromAPI_parsed (did : Chars) (doc : Json) (arrv : List Json)
    (hpj : jsGet (jsGet doc "attributes".toList) "panelsJSON".toList
      = .str (jsonStringify (Json.arr arrv))) :
    getEmbeddedPanelsFromAPI did (.ok doc)
      = (match buildResources did (sortPanelsByGrid arrv) with
         | .error _ => .error .typeErr
         | .ok rs => .ok rs) := by
  have htr : truthy (.str (jsonStringify (Json.arr arrv))) = true := by
    obtain ⟨c, t, hc, _⟩ := stringify_head (Json.arr arrv)
    rw [hc]
    simp [truthy]
  rw [getEmbeddedPanelsFromAPI]
  simp only [hpj, htr]
  rw [if_neg (by simp)]
  rw [jsonParse_stringify (Json.arr arrv)]

/-- Scenario B, first declared panel: grid `{y:0, x:1}`. -/
def scenarioBPanelA : Json :=
  Json.obj [("type".toList, Json.str "lens".toList),
    ("panelIndex".toList, Json.str ['A']),
    ("gridData".toList, Json.obj [("y".toList, Json.num 0), ("x".toList, Json.num 1)])]

/-- Scenario B, second declared panel: grid `{y:0, x:0}`. -/
def scenarioBPanelB : Json :=
  Json.obj [("type".toList, Json.str "lens".toList),
    ("panelIndex".toList, Json.str ['B']),
    ("gridData".toList, Json.obj [("y".toList, Json.num 0), ("x".toList, Json.num 0)])]

/-- Scenario B dashboard document: its `attributes.panelsJSON` is the
serialized two-panel list, x1 declared before x0. -/
def scenarioBDoc : Json :=
  Json.obj [("attributes".toList, Json.obj [
    ("panelsJSON".toList,
      Json.str (jsonStringify (Json.arr [scenarioBPanelA, scenarioBPanelB]))),
    ("title".toList, Json.str ['D'])])]

/-- C6: the API-path harvester's grid sort orders panels by ascending grid
row (`gridData.y`), then ascending grid column (`gridData.x`), with
declaration order as the final tie-break (the filter at any grid key is
unchanged, so equal-key panels keep their relative order); and on the
concrete Scenario B document whose panel list declares the `{y:0,x:1}`
panel before the `{y:0,x:0}` one, the harvester returns the `x:0` panel
first. -/
theorem C6_grid_sort (panels : List Json) :
    (sortPanelsByGrid panels).Perm panels ∧
    List.Pairwise (fun a b => gridY a < gridY b ∨ (gridY a = gridY b ∧ gridX a ≤ gridX b))
      (sortPanelsByGrid panels) ∧
    (∀ k : Int × Int, (sortPanelsByGrid panels).filter (fun p => (gridY p, gridX p) = k)
        = panels.filter (fun p => (gridY p, gridX p) = k)) ∧
    getEmbeddedPanelsFromAPI "d1".toList (.ok scenarioBDoc)
      = .ok [
        { rtype := Json.str "lens".toList, subType := .null, id := .null,
          title := Json.str "Untitled Panel".toList, panelIndex := Json.str ['B'],
          dashboardId := "d1".toList, isEmbedded := true },
        { rtype := Json.str "lens".toList, subType := .null, id := .null,
          title := Json.str "Untitled Panel".toList, panelIndex := Json.str ['A'],
          dashboardId := "d1".toList, isEmbedded := true }] := by
  refine ⟨insSort_perm gridLe panels, ?_, ?_, ?_⟩
  · exact (insSort_pairwise gridLe gridLe_total gridLe_trans panels).imp gridLe_elim
  · intro k
    exact insSort_filter_key (fun p => (gridY p, gridX p))
      (fun k1 k2 => k1.1 < k2.1 || (k1.1 = k2.1 && k1.2 ≤ k2.2)) gridLe
      (fun a b => rfl) (fun v => by simp) k panels
  · rw [getEmbeddedPanelsFromAPI_parsed "d1".toList scenarioBDoc
      [scenarioBPanelA, scenarioBPanelB] rfl]
    rfl

/-- C8 refutation input: a dashboard page URL. -/
def c8Url : Chars := "https://kb.example.com/app/dashboards#/view/abc".toList

/-- C8 refutation input: a fetched dashboard document with no `panelsJSON`
field at all. -/
def c8Doc : Json :=
  Json.obj [("attributes".toList, Json.obj [("title".toList, Json.str ['D'])])]

/-- C8 refutation input: one panel the DOM harvester would return. -/
def c8DomPanel : DomPanel :=
  { info := { dtype := "visualization".toList, id := some ['p'], title := ['T'] },
    top := 0, left := 0 }

/-- C8 counterexample: on a dashboard page with an id, a fetched document
missing its panel-list field does not trigger the DOM fallback.  The API
path returns an empty panel list without raising, so the aggregator
answers with the primary resource alone although the DOM harvester holds a
panel — contradicting the claim that every API-harvest failure, including
a missing panel-list field, falls back to the DOM path. -/
theorem C8_counterexample :
    getEmbeddedPanelsFromAPI "abc".toList (.ok c8Doc) = .ok [] ∧
    detectEmbeddedPanels [c8DomPanel] = [c8DomPanel.info] ∧
    getAllResources c8Url none (.ok c8Doc) [c8DomPanel]
      = [.primary { dtype := "dashboard".toList, id := "abc".toList, title := none,
                    url := c8Url, useAlternativeApi := false, notExportable := false,
                    notExportableReason := none }] := by
  refine ⟨rfl, rfl, rfl⟩

/-- C8 (amended): on a dashboard page with a primary id, only a *thrown*
API-path failure (fetch error, parse error, or sort/extraction type error)
triggers the DOM fallback, and the scan then still returns the primary
resource followed by the DOM-harvested panels; a successful API harvest —
which includes the missing/falsy-`panelsJSON` case, harvesting `[]` —
returns the primary resource followed by the API panels without
consulting the DOM path. -/
theorem C8_dom_fallback (url : Chars) (domTitle : Option Chars)
    (fetchDoc : Except Nat Json) (domPanels : List DomPanel) (m : Detected)
    (hm : detectSavedObject url domTitle = some m)
    (hdash : containsSeq "/app/dashboards".toList url = true)
    (hid : m.id ≠ []) :
    (∀ e, getEmbeddedPanelsFromAPI m.id fetchDoc = .error e →
      getAllResources url domTitle fetchDoc domPanels
        = .primary m :: (detectEmbeddedPanels domPanels).map .domPanel) ∧
    (∀ ps, getEmbeddedPanelsFromAPI m.id fetchDoc = .ok ps →
      getAllResources url domTitle fetchDoc domPanels
        = .primary m :: ps.map .apiPanel) := by
  constructor
  · intro e he
    simp only [getAllResources, hm]
    rw [if_pos ⟨hdash, hid⟩, he]
  · intro ps hps
    simp only [getAllResources, hm]
    rw [if_pos ⟨hdash, hid⟩, hps]

/-- Concrete instance of `C8_dom_fallback`: a failed dashboard fetch makes
the scan fall back to the DOM panel. -/
theorem C8_dom_fallback_witness :
    getAllResources c8Url none (.error 500) [c8DomPanel]
      = .primary { dtype := "dashboard".toList, id := "abc".toList, title := none,
                   url := c8Url, useAlternativeApi := false, notExportable := false,
                   notExportableReason := none }
        :: (detectEmbeddedPanels [c8DomPanel]).map .domPanel :=
  (C8_dom_fallback c8Url none (.error 500) [c8DomPanel] _ rfl rfl (by decide)).1
    (.fetchErr 500) rfl

/-- Modelled from the spec: the ordering C7 asserts of two panels placed
in this order — within the 50-unit top tolerance ascending left, beyond it
strictly ascending top. -/
def c7Ok (a b : DomPanel) : Bool :=
  if (a.top - b.top).natAbs > 50 then a.top < b.top else a.left ≤ b.left

/-- Three panels on which the DOM comparator cycles: each adjacent pair is
within the 50-unit tolerance (so compares by left), but the outer pair is
beyond it (so compares by top), with the left order reversed. -/
def c7Input : List DomPanel :=
  [{ info := { dtype := "visualization".toList, id := some ['a'], title := ['A'] },
     top := 0, left := 100 },
   { info := { dtype := "visualization".toList, id := some ['b'], title := ['B'] },
     top := 40, left := 50 },
   { info := { dtype := "visualization".toList, id := some ['c'], title := ['C'] },
     top := 80, left := 0 }]

/-- C7 counterexample: for the cyclic three-panel input, NO ordering of the
panels satisfies the claimed pairwise property — the 50-unit tolerance
relation is not transitive, so the property the claim asserts of the
harvester's output is unsatisfiable; the model's sorted output is one such
ordering and violates it. -/
theorem C7_counterexample :
    (∀ l : List DomPanel, l.Perm c7Input →
      ¬ List.Pairwise (fun a b => c7Ok a b = true) l) ∧
    (insSort domPanelLe c7Input).Perm c7Input ∧
    ¬ List.Pairwise (fun a b => c7Ok a b = true) (insSort domPanelLe c7Input) := by
  have key : ∀ l : List DomPanel, l.Perm c7Input →
      ¬ List.Pairwise (fun a b => c7Ok a b = true) l := by
    intro l hp hpw
    have hnd : l.Nodup := hp.nodup_iff.mpr (by decide)
    have hlen : l.length = 3 := by rw [hp.length_eq]; rfl
    match l, hlen, hp, hpw, hnd with
    | [x, y, z], _, hp, hpw, hnd =>
      have hx : x ∈ c7Input := hp.subset (by simp)
      have hy : y ∈ c7Input := hp.subset (by simp)
      have hz : z ∈ c7Input := hp.subset (by simp)
      simp only [c7Input, List.mem_cons, List.mem_singleton,
        List.not_mem_nil, or_false] at hx hy hz
      rcases hx with rfl | rfl | rfl <;> rcases hy with rfl | rfl | rfl <;>
        rcases hz with rfl | rfl | rfl <;>
        first
          | exact absurd hpw (by decide)
          | exact absurd hnd (by decide)
  exact ⟨key, insSort_perm domPanelLe c7Input,
    key (insSort domPanelLe c7Input) (insSort_perm domPanelLe c7Input)⟩

/-- Lexicographic (top, left) order on panels: what the DOM comparator
computes whenever all tops are separated beyond the tolerance or equal. -/
def domLexLe (a b : DomPanel) : Bool :=
  a.top < b.top || (a.top = b.top && a.left ≤ b.left)

theorem domLexLe_total (a b : DomPanel) : domLexLe a b || domLexLe b a := by
  simp only [domLexLe, Bool.or_eq_true, Bool.and_eq_true, decide_eq_true_eq]
  omega

theorem domLexLe_trans (a b c : DomPanel) :
    domLexLe a b → domLexLe b c → domLexLe a c := by
  simp only [domLexLe, Bool.or_eq_true, Bool.and_eq_true, decide_eq_true_eq]
  omega

/-- C7 (amended): when any two panels' tops are either equal or separated
by more than the 50-unit tolerance (so the comparator is consistent), the
sorted order satisfies the claimed pairwise property — beyond-tolerance
pairs strictly by ascending top, same-row pairs by ascending left — and
every returned descriptor is the position-free `info` of an input panel. -/
theorem C7_dom_sort (domPanels : List DomPanel)
    (hsep : ∀ a ∈ domPanels, ∀ b ∈ domPanels,
      a.top = b.top ∨ (a.top - b.top).natAbs > 50) :
    List.Pairwise (fun a b => c7Ok a b = true) (insSort domPanelLe domPanels) ∧
    ∀ d ∈ detectEmbeddedPanels domPanels, ∃ p ∈ domPanels, d = p.info := by
  constructor
  · have hcongr : insSort domPanelLe domPanels = insSort domLexLe domPanels := by
      refine insSort_congr domPanelLe domLexLe domPanels ?_
      intro a ha b hb
      rcases hsep a ha b hb with h | h
      · simp [domPanelLe, domLexLe, h]
      · have hne : a.top ≠ b.top := by omega
        by_cases hab : a.top < b.top
        · simp [domPanelLe, domLexLe, if_pos h, hab, le_of_lt hab]
        · have h2 : ¬ a.top ≤ b.top := by omega
          simp [domPanelLe, domLexLe, if_pos h, hab, h2, hne]
    rw [hcongr]
    have hp := insSort_pairwise domLexLe domLexLe_total domLexLe_trans domPanels
    refine List.Pairwise.imp_of_mem ?_ hp
    intro a b ha hb hab
    have ha2 := (insSort_perm domLexLe domPanels).mem_iff.mp ha
    have hb2 := (insSort_perm domLexLe domPanels).mem_iff.mp hb
    simp only [domLexLe, Bool.or_eq_true, Bool.and_eq_true, decide_eq_true_eq] at hab
    by_cases h : (a.top - b.top).natAbs > 50
    · simp only [c7Ok, if_pos h, decide_eq_true_eq]
      rcases hab with h1 | ⟨h1, _⟩
      · exact h1
      · omega
    · simp only [c7Ok, if_neg h, decide_eq_true_eq]
      rcases hsep a ha2 b hb2 with he | hgt
      · rcases hab with h1 | ⟨_, h2⟩
        · omega
        · exact h2
      · omega
  · intro d hd
    simp only [detectEmbeddedPanels, List.mem_map] at hd
    obtain ⟨p, hp, he⟩ := hd
    exact ⟨p, (insSort_perm domPanelLe domPanels).mem_iff.mp hp, he.symm⟩

/-- Two panels separated beyond the tolerance, for the C7 instance. -/
def c7SepInput : List DomPanel :=
  [{ info := { dtype := "visualization".toList, id := some ['a'], title := ['A'] },
     top := 100, left := 0 },
   { info := { dtype := "visualization".toList, id := some ['b'], title := ['B'] },
     top := 0, left := 50 }]

/-- Concrete instance of `C7_dom_sort` on a separated two-panel input. -/
theorem C7_dom_sort_witness :
    List.Pairwise (fun a b => c7Ok a b = true) (insSort domPanelLe c7SepInput) ∧
    ∀ d ∈ detectEmbeddedPanels c7SepInput, ∃ p ∈ c7SepInput, d = p.info :=
  C7_dom_sort c7SepInput (by decide)

/-- C4: for a panel of kind `lens` whose harvested title is `"Sales"`, the
synthesized saved object has `type == "lens"`, `attributes.title ==
"Sales"`, and `attributes.state` is a string holding the JSON serialization
of the source state (`embeddableConfig.attributes.state`, `{}` when
absent), not a nested structure; `constructPanelExport` emits that record's
serialization as the first NDJSON line. -/
theorem C4_lens_record (panel dTitle : Json) (now freshId : Chars)
    (hty : jsGet panel "type".toList = .str "lens".toList)
    (htitle : extractPanelTitle panel = .str "Sales".toList) :
    jsGet (constructPanelSavedObject panel now freshId) "type".toList
      = .str "lens".toList ∧
    jsGet (jsGet (constructPanelSavedObject panel now freshId) "attributes".toList)
      "title".toList = .str "Sales".toList ∧
    jsGet (jsGet (constructPanelSavedObject panel now freshId) "attributes".toList)
      "state".toList
      = .str (jsonStringify (jsOr (jsGet (jsOr (jsGet (jsOr
          (jsGet panel "embeddableConfig".toList) (.obj [])) "attributes".toList)
          (.obj [])) "state".toList) (.obj []))) ∧
    constructPanelExport panel dTitle now freshId
      = jsonStringify (constructPanelSavedObject panel now freshId)
          ++ '\n' :: jsonStringify exportSummaryJson := by
  refine ⟨?_, ?_, ?_, rfl⟩ <;>
  · simp only [constructPanelSavedObject, hty, htitle]
    rfl

/-- A concrete lens panel titled `"Sales"` through the first title
location (`embeddableConfig.title`). -/
def c4Panel : Json :=
  Json.obj [("type".toList, Json.str "lens".toList),
    ("panelIndex".toList, Json.str ['P']),
    ("embeddableConfig".toList, Json.obj [
      ("title".toList, Json.str "Sales".toList),
      ("attributes".toList, Json.obj [
        ("state".toList, Json.obj [("query".toList, Json.str ['q'])])])])]

/-- Concrete instance of `C4_lens_record`. -/
theorem C4_lens_record_witness :
    jsGet (constructPanelSavedObject c4Panel "2024-01-01T00:00:00.000Z".toList
      "f1".toList) "type".toList = .str "lens".toList ∧
    jsGet (jsGet (constructPanelSavedObject c4Panel "2024-01-01T00:00:00.000Z".toList
      "f1".toList) "attributes".toList) "title".toList = .str "Sales".toList ∧
    jsGet (jsGet (constructPanelSavedObject c4Panel "2024-01-01T00:00:00.000Z".toList
      "f1".toList) "attributes".toList) "state".toList
      = .str (jsonStringify (jsOr (jsGet (jsOr (jsGet (jsOr
          (jsGet c4Panel "embeddableConfig".toList) (.obj [])) "attributes".toList)
          (.obj [])) "state".toList) (.obj []))) ∧
    constructPanelExport c4Panel (Json.str ['D']) "2024-01-01T00:00:00.000Z".toList
      "f1".toList
      = jsonStringify (constructPanelSavedObject c4Panel
          "2024-01-01T00:00:00.000Z".toList "f1".toList)
          ++ '\n' :: jsonStringify exportSummaryJson :=
  C4_lens_record c4Panel (Json.str ['D']) "2024-01-01T00:00:00.000Z".toList
    "f1".toList rfl rfl

/-- `panel.embeddableConfig || \x7b\x7d` as each synthesizer branch binds it. -/
def panelEmbeddableConfig (panel : Json) : Json :=
  jsOr (jsGet panel "embeddableConfig".toList) (.obj [])

/-- `embeddableConfig.attributes || \x7b\x7d`. -/
def panelAttrs (panel : Json) : Json :=
  jsOr (jsGet (panelEmbeddableConfig panel) "attributes".toList) (.obj [])

/-- `attributes.state || \x7b\x7d` of the lens branch. -/
def lensPanelState (panel : Json) : Json :=
  jsOr (jsGet (panelAttrs panel) "state".toList) (.obj [])

/-- `embeddableConfig.savedVis || \x7b\x7d` of the visualization branch. -/
def panelSavedVis (panel : Json) : Json :=
  jsOr (jsGet (panelEmbeddableConfig panel) "savedVis".toList) (.obj [])

/-- The `visState` object the visualization branch assembles and encodes. -/
def visStateObj (panel : Json) : Json :=
  .obj [
    ("type".toList, jsOr (jsGet (panelSavedVis panel) "type".toList)
      (.str "markdown".toList)),
    ("params".toList, jsOr (jsGet (panelSavedVis panel) "params".toList) (.obj [])),
    ("aggs".toList, jsOr (jsGet (jsGet (panelSavedVis panel) "data".toList)
      "aggs".toList) (.arr [])),
    ("title".toList, extractPanelTitle panel)]

/-- The `searchSource` the visualization branch encodes. -/
def visSearchSource (panel : Json) : Json :=
  jsOr (jsGet (jsGet (panelSavedVis panel) "data".toList) "searchSource".toList)
    (.obj [
      ("query".toList, .obj [
        ("language".toList, .str "kuery".toList),
        ("query".toList, .str [])]),
      ("filter".toList, .arr [])])

/-- C5: for each known panel kind, the string-encoded sub-fields of the
synthesized record JSON-decode back to exactly the source-derived values
they encode.  Lens: `attributes.state` encodes and decodes to the source
state; visualization: `visState`, `uiStateJSON` and
`kibanaSavedObjectMeta.searchSourceJSON` encode and decode to the
assembled source values; map: the three `...JSON` fields hold
`stringOrStringify` of the source fields, which decodes to the source
value when the source field is not already a string and passes source
strings through byte-for-byte; search: `columns`, `sort` and
`kibanaSavedObjectMeta` are copied from the source unencoded, and the
default meta's encoded `searchSourceJSON` decodes to the empty object.
Titles and descriptions are carried unencoded in every branch. -/
theorem C5_subfield_roundtrip (panel : Json) (now freshId : Chars) :
    (jsGet panel "type".toList = .str "lens".toList →
      jsGet (jsGet (constructPanelSavedObject panel now freshId) "attributes".toList)
          "state".toList = .str (jsonStringify (lensPanelState panel)) ∧
      jsonParse (jsonStringify (lensPanelState panel)) = some (lensPanelState panel) ∧
      jsGet (jsGet (constructPanelSavedObject panel now freshId) "attributes".toList)
          "description".toList
        = jsOr (jsGet (panelAttrs panel) "description".toList) (.str []) ∧
      jsGet (jsGet (constructPanelSavedObject panel now freshId) "attributes".toList)
          "title".toList = extractPanelTitle panel) ∧
    (jsGet panel "type".toList = .str "visualization".toList →
      jsGet (jsGet (constructPanelSavedObject panel now freshId) "attributes".toList)
          "visState".toList = .str (jsonStringify (visStateObj panel)) ∧
      jsonParse (jsonStringify (visStateObj panel)) = some (visStateObj panel) ∧
      jsGet (jsGet (constructPanelSavedObject panel now freshId) "attributes".toList)
          "uiStateJSON".toList
        = .str (jsonStringify (jsOr (jsGet (panelSavedVis panel) "uiState".toList)
            (.obj []))) ∧
      jsonParse (jsonStringify (jsOr (jsGet (panelSavedVis panel) "uiState".toList)
          (.obj [])))
        = some (jsOr (jsGet (panelSavedVis panel) "uiState".toList) (.obj [])) ∧
      jsGet (jsGet (jsGet (constructPanelSavedObject panel now freshId)
          "attributes".toList) "kibanaSavedObjectMeta".toList) "searchSourceJSON".toList
        = .str (jsonStringify (visSearchSource panel)) ∧
      jsonParse (jsonStringify (visSearchSource panel)) = some (visSearchSource panel)) ∧
    (jsGet panel "type".toList = .str "map".toList →
      jsGet (jsGet (constructPanelSavedObject panel now freshId) "attributes".toList)
          "layerListJSON".toList
        = .str (stringOrStringify (jsGet (panelAttrs panel) "layerListJSON".toList)
            (.arr [])) ∧
      jsGet (jsGet (constructPanelSavedObject panel now freshId) "attributes".toList)
          "mapStateJSON".toList
        = .str (stringOrStringify (jsGet (panelAttrs panel) "mapStateJSON".toList)
            (.obj [])) ∧
      jsGet (jsGet (constructPanelSavedObject panel now freshId) "attributes".toList)
          "uiStateJSON".toList
        = .str (stringOrStringify (jsGet (panelAttrs panel) "uiStateJSON".toList)
            (.obj []))) ∧
    (∀ v d : Json, (∀ s, v ≠ .str s) →
      jsonParse (stringOrStringify v d) = some (jsOr v d)) ∧
    (∀ s : Chars, ∀ d : Json, stringOrStringify (.str s) d = s) ∧
    (jsGet panel "type".toList = .str "search".toList →
      jsGet (jsGet (constructPanelSavedObject panel now freshId) "attributes".toList)
          "columns".toList = jsOr (jsGet (panelAttrs panel) "columns".toList) (.arr []) ∧
      jsGet (jsGet (constructPanelSavedObject panel now freshId) "attributes".toList)
          "sort".toList = jsOr (jsGet (panelAttrs panel) "sort".toList) (.arr []) ∧
      jsGet (jsGet (constructPanelSavedObject panel now freshId) "attributes".toList)
          "kibanaSavedObjectMeta".toList
        = jsOr (jsGet (panelAttrs panel) "kibanaSavedObjectMeta".toList)
            (.obj [("searchSourceJSON".toList, .str "\x7b\x7d".toList)]) ∧
      jsonParse "\x7b\x7d".toList = some (.obj [])) := by
  refine ⟨?_, ?_, ?_, ?_, ?_, ?_⟩
  · intro hty
    refine ⟨?_, jsonParse_stringify _, ?_, ?_⟩ <;>
      (simp only [constructPanelSavedObject, hty]; rfl)
  · intro hty
    refine ⟨?_, jsonParse_stringify _, ?_, jsonParse_stringify _, ?_,
      jsonParse_stringify _⟩ <;>
      (simp only [constructPanelSavedObject, hty]; rfl)
  · intro hty
    refine ⟨?_, ?_, ?_⟩ <;>
      (simp only [constructPanelSavedObject, hty]; rfl)
  · intro v d h
    cases v with
    | str s => exact absurd rfl (h s)
    | null => exact jsonParse_stringify _
    | bool b => exact jsonParse_stringify _
    | num n => exact jsonParse_stringify _
    | arr es => exact jsonParse_stringify _
    | obj fs => exact jsonParse_stringify _
  · intro s d
    rfl
  · intro hty
    refine ⟨?_, ?_, ?_, rfl⟩ <;>
      (simp only [constructPanelSavedObject, hty]; rfl)

theorem dropWhileHead_false (p : α → Bool) :
    ∀ l : List α, ∀ c r2, l.dropWhile p = c :: r2 → p c = false := by
  intro l
  induction l with
  | nil => intro c r2 h; simp [List.dropWhile] at h
  | cons x t ih =>
    intro c r2 h
    rw [List.dropWhile_cons] at h
    by_cases hx : p x
    · rw [if_pos hx] at h
      exact ih c r2 h
    · rw [if_neg hx] at h
      injection h with h1 _
      rw [← h1]
      simpa using hx

/-- A successful `tryMatchAt` decomposes its input: the literal prefix,
then a non-empty capture free of stop characters, cut exactly at the first
stop character (if any remains). -/
theorem tryMatchAt_some (p : UrlPattern) (l cap : Chars)
    (h : tryMatchAt p l = some cap) :
    ∃ tail, l = p.pfx ++ (cap ++ tail) ∧ cap ≠ [] ∧
      (∀ c ∈ cap, stopChar p.stopSlash c = false) ∧
      (∀ c r2, tail = c :: r2 → stopChar p.stopSlash c = true) := by
  simp only [tryMatchAt] at h
  by_cases hp : p.pfx.isPrefixOf l
  · rw [if_pos hp] at h
    obtain ⟨t, ht⟩ := List.isPrefixOf_iff_prefix.mp hp
    have hdrop : l.drop p.pfx.length = t := by
      rw [← ht]; exact List.drop_left p.pfx t
    rw [hdrop] at h
    cases htk : t.takeWhile (fun c => ¬ stopChar p.stopSlash c) with
    | nil =>
      rw [htk] at h
      exact absurd h (by simp)
    | cons c0 cs =>
      rw [htk] at h
      have h2 : some (c0 :: cs) = some cap := h
      injection h2 with h2
      refine ⟨t.dropWhile (fun c => ¬ stopChar p.stopSlash c), ?_, ?_, ?_, ?_⟩
      · rw [← ht, ← h2, ← htk, List.takeWhile_append_dropWhile]
      · rw [← h2]; simp
      · intro c hc
        rw [← h2] at hc
        rw [← htk] at hc
        have hp2 := List.mem_takeWhile_imp hc
        simpa using hp2
      · intro c r2 hcr
        have hh := dropWhileHead_false _ t c r2 hcr
        simpa using hh
  · rw [if_neg hp] at h
    exact absurd h (by simp)

/-- A successful `scanMatch` is `tryMatchAt` succeeding at some position of
the scanned string. -/
theorem scanMatch_some (p : UrlPattern) :
    ∀ url cap, scanMatch p url = some cap →
      ∃ pre suf, url = pre ++ suf ∧ tryMatchAt p suf = some cap := by
  intro url
  induction url with
  | nil =>
    intro cap h
    rw [scanMatch] at h
    exact ⟨[], [], rfl, h⟩
  | cons c rest ih =>
    intro cap h
    cases htry : tryMatchAt p (c :: rest) with
    | some cap2 =>
      simp only [scanMatch, htry] at h
      exact ⟨[], c :: rest, rfl, by rw [htry, h]⟩
    | none =>
      simp only [scanMatch, htry] at h
      obtain ⟨pre, suf, heq, ht⟩ := ih cap h
      exact ⟨c :: pre, suf, by rw [heq, List.cons_append], ht⟩

/-- Modelled from the spec: the identifier the claim describes — the URL
segment between the known prefix and the first `?`, `&`, or fragment
boundary (`#`). -/
def specCapture (rest : Chars) : Chars :=
  rest.takeWhile (fun c => ¬ (c = '?' ∨ c = '&' ∨ c = '#'))

/-- A query-object URL whose identifier segment is followed by a fragment
boundary, not a query separator. -/
def c3HashUrl : Chars :=
  "https://kb.example.com/app/management/kibana/objects/savedQueries/abc#x".toList

/-- C3 counterexample: the capture character class is `[^?&]+`, which does
not stop at a fragment boundary, so on a URL whose identifier is followed
by `#x` the classifier returns id `"abc#x"` while the claimed rule — stop
at the first `?`, `&`, or fragment boundary — yields `"abc"`. -/
theorem C3_counterexample :
    c3HashUrl = "https://kb.example.com".toList
      ++ "/app/management/kibana/objects/savedQueries/".toList ++ "abc#x".toList ∧
    detectSavedObject c3HashUrl none
      = some { dtype := "query".toList, id := "abc#x".toList, title := none,
               url := c3HashUrl, useAlternativeApi := false, notExportable := false,
               notExportableReason := none } ∧
    specCapture "abc#x".toList = "abc".toList ∧
    ("abc#x".toList : Chars) ≠ "abc".toList := by
  refine ⟨rfl, rfl, rfl, by decide⟩

/-- Scenario A's URL. -/
def scenarioAUrl : Chars :=
  "https://kb.example.com/app/dashboards#/view/abc-123?x=1".toList

/-- C3 (amended): Scenario A classifies to type `dashboard` with id
`abc-123`; every successful classification takes the documented type of
some pattern of the table, with an id that is a non-empty run after the
pattern's prefix containing no stop character and cut exactly at the first
stop character — where the stop characters are `?` and `&` only (plus `/`
for `slo`), NOT the fragment boundary; and a URL matched by no pattern
classifies to `none`. -/
theorem C3_classifier :
    detectSavedObject scenarioAUrl none
      = some { dtype := "dashboard".toList, id := "abc-123".toList, title := none,
               url := scenarioAUrl, useAlternativeApi := false,
               notExportable := false, notExportableReason := none } ∧
    (∀ url dt m, detectSavedObject url dt = some m →
      ∃ p ∈ KIBANA_PATTERNS, m.dtype = p.ptype ∧
        ∃ pre tail, url = pre ++ p.pfx ++ (m.id ++ tail) ∧ m.id ≠ [] ∧
          (∀ c ∈ m.id, stopChar p.stopSlash c = false) ∧
          (∀ c r2, tail = c :: r2 → stopChar p.stopSlash c = true)) ∧
    detectSavedObject "https://kb.example.com/app/home".toList none = none := by
  refine ⟨rfl, ?_, rfl⟩
  intro url dt m h
  obtain ⟨p, hp, hscan, hdtype, -⟩ := detectGo_fields KIBANA_PATTERNS url dt m h
  obtain ⟨pre, suf, hurl, htry⟩ := scanMatch_some p url m.id hscan
  obtain ⟨tail, hsuf, hne, hall, htail⟩ := tryMatchAt_some p suf m.id htry
  exact ⟨p, hp, hdtype, pre, tail,
    by rw [hurl, hsuf, List.append_assoc], hne, hall, htail⟩
